import Mathlib

/-!
Verification development for the book-translation pipeline
(chunker / translation orchestrator / PDF layout reconstructor).

The Python sources are shallowly embedded as executable Lean functions:
pure string manipulation is translated to recursion over `List Char`,
the asynchronous orchestrator is modelled by an explicit completion
order (a permutation of the chunk list) together with an outcome oracle
for the remote call, and code paths that raise exceptions are modelled
with `Option` (`none` = the Python code raises).
-/

namespace BookTrans

/-! ## Python string primitives -/

/-- Whitespace set used by Python `str.split()` / `str.strip()` / `\s`
(ASCII part, which is what the sources exercise). -/
def isWS (c : Char) : Bool :=
  c = ' ' || c = '\t' || c = '\n' || c = '\r' || c = '\x0b' || c = '\x0c'

/-- Accumulator-based splitter behind `pyWords`; mirrors Python
`str.split()` (split on whitespace runs, dropping empty pieces). -/
def wordsAux : List Char → List Char → List String
  | [], [] => []
  | [], acc => [⟨acc.reverse⟩]
  | c :: cs, acc =>
    if isWS c then
      match acc with
      | [] => wordsAux cs []
      | _ => ⟨acc.reverse⟩ :: wordsAux cs []
    else wordsAux cs (c :: acc)

/-- Python `text.split()`. -/
def pyWords (s : String) : List String :=
  wordsAux s.data []

/-- Python `len(text.split())`. -/
def wordCount (s : String) : Nat :=
  (pyWords s).length

/-- Accumulator-based splitter behind `pySplitLines`; mirrors Python
`text.split` at a single newline (keeps empty pieces). -/
def splitNLAux : List Char → List Char → List String
  | [], acc => [⟨acc.reverse⟩]
  | c :: cs, acc =>
    if c = '\n' then ⟨acc.reverse⟩ :: splitNLAux cs []
    else splitNLAux cs (c :: acc)

/-- Python `text.split` at a single newline character. -/
def pySplitLines (s : String) : List String :=
  splitNLAux s.data []

/-- Python `str.lstrip()` on a character list. -/
def lstripL (l : List Char) : List Char :=
  l.dropWhile isWS

/-- Python `str.strip()` on a character list. -/
def pstripL (l : List Char) : List Char :=
  (((l.dropWhile isWS).reverse).dropWhile isWS).reverse

/-- Python `str.strip()`. -/
def pstrip (s : String) : String :=
  ⟨pstripL s.data⟩

/-- Python `a.startswith(b)` on character lists. -/
def startsWithL (l pre : List Char) : Bool :=
  pre.isPrefixOf l

/-- Python `line.startswith(p)` for strings. -/
def pyStartsWith (s p : String) : Bool :=
  startsWithL s.data p.data

/-- Python `sub in s` (substring containment) on character lists. -/
def containsSub : List Char → List Char → Bool
  | _, [] => true
  | [], _ :: _ => false
  | c :: cs, pat => startsWithL (c :: cs) pat || containsSub cs pat

/-- Python `ch in s` for a single character. -/
def pyContainsChar (s : String) (c : Char) : Bool :=
  s.data.contains c

/-- ASCII lowercase plus the accented uppercase letters that occur in
the sources' chapter keywords; models `re.IGNORECASE` comparison. -/
def charLower (c : Char) : Char :=
  if 'A' ≤ c ∧ c ≤ 'Z' then Char.ofNat (c.toNat + 32)
  else if c = 'Í' then 'í'
  else if c = 'É' then 'é'
  else if c = 'Ó' then 'ó'
  else if c = 'Á' then 'á'
  else c

/-- Case-insensitive keyword match at the head of `l`; returns the
remainder after the keyword on success. -/
def ciDropKeyword : List Char → List Char → Option (List Char)
  | [], l => some l
  | _ :: _, [] => none
  | k :: ks, c :: cs =>
    if charLower c = charLower k then ciDropKeyword ks cs else none

/-- Try a list of keyword alternatives in order (regex alternation),
returning the remainder after the first matching keyword. -/
def ciDropAlts (alts : List String) (l : List Char) : Option (List Char) :=
  match alts with
  | [] => none
  | a :: rest =>
    match ciDropKeyword a.data l with
    | some r => some r
    | none => ciDropAlts rest l

/-! ## Chunker data model (src/core/chunker.py, src/core/extractor.py) -/

/-- PageContent from src/core/extractor.py. -/
structure Page where
  page_num : Nat
  text : String
  has_images : Bool := false
  image_count : Nat := 0
deriving DecidableEq, Repr

/-- Chapter break record produced by `_detect_chapter_breaks`. -/
structure ChapterBreak where
  page_num : Nat
  label : String
deriving DecidableEq, Repr

/-- Section dictionary produced by `_split_at_chapters`. -/
structure TextSection where
  pages : List Page
  chapter_label : String
  start_page : Nat
deriving DecidableEq, Repr

/-- Sub-chunk dictionary produced by `_split_section`. -/
structure SubChunk where
  text : String
  start_page : Nat
  end_page : Nat
  chapter_label : String
deriving DecidableEq, Repr

/-- Chunk dataclass from src/core/chunker.py; `word_count` is filled by
`__post_init__` as `len(text.split())`. -/
structure Chunk where
  index : Nat
  text : String
  start_page : Nat
  end_page : Nat
  chapter_label : String
  word_count : Nat
deriving DecidableEq, Repr

/-! ## Chapter-break detection (CHAPTER_PATTERNS, `_detect_chapter_breaks`)

Each of the six regular expressions in `CHAPTER_PATTERNS` is an anchored
(`re.match`) case-insensitive prefix test; they are translated pattern by
pattern.  Regex alternation with backtracking over a keyword list whose
continuation may fail (for example `part` vs `parte`) is a disjunction
over the alternatives, which `List.any` reproduces exactly for a boolean
match test. -/

/-- Continuation `\s+\d+` (here only matching success matters, so one
digit after mandatory whitespace decides it). -/
def afterKwWsDigit (l : List Char) : Bool :=
  match l with
  | [] => false
  | c :: _ =>
    isWS c && (match (l.dropWhile isWS) with
               | [] => false
               | d :: _ => d.isDigit)

/-- Continuation `\s+` followed by one character from `chars` (matched
case-insensitively when `ci` is true, as `re.IGNORECASE` extends
character classes such as `[IVXLCDM]` and `[A-Z]`). -/
def afterKwWsCharOf (chars : List Char) (ci : Bool) (l : List Char) : Bool :=
  match l with
  | [] => false
  | c :: _ =>
    isWS c && (match (l.dropWhile isWS) with
               | [] => false
               | d :: _ =>
                 chars.any (fun k => if ci then charLower d = charLower k else d = k))

/-- Pattern `^(?:chapter|capítulo|capitulo|chapitre|kapitel|capitolo)\s+\d+`. -/
def matchesPat1 (l : List Char) : Bool :=
  ["chapter", "capítulo", "capitulo", "chapitre", "kapitel", "capitolo"].any
    (fun kw => match ciDropKeyword kw.data l with
               | some r => afterKwWsDigit r
               | none => false)

/-- Pattern `^(?:part|parte|partie|teil)\s+[IVXLCDM\d]+`. -/
def matchesPat2 (l : List Char) : Bool :=
  ["part", "parte", "partie", "teil"].any
    (fun kw => match ciDropKeyword kw.data l with
               | some r =>
                 afterKwWsCharOf ['I','V','X','L','C','D','M','0','1','2','3','4','5','6','7','8','9'] true r
               | none => false)

/-- Pattern `^(?:appendix|apéndice|apendice|annexe|anhang|appendice)\s+[A-Z\d]`. -/
def matchesPat3 (l : List Char) : Bool :=
  ["appendix", "apéndice", "apendice", "annexe", "anhang", "appendice"].any
    (fun kw => match ciDropKeyword kw.data l with
               | some r =>
                 (match r with
                  | [] => false
                  | c :: _ =>
                    isWS c && (match r.dropWhile isWS with
                               | [] => false
                               | d :: _ => d.isDigit || ('A' ≤ charLower d ∧ charLower d ≤ 'z' ∧ d.isAlpha)))
               | none => false)

/-- Pattern `^(?:introduction|introducción|introduccion|epilogue|epílogo|epilogo)`. -/
def matchesPat4 (l : List Char) : Bool :=
  ["introduction", "introducción", "introduccion", "epilogue", "epílogo", "epilogo"].any
    (fun kw => (ciDropKeyword kw.data l).isSome)

/-- Pattern `^(?:bibliography|bibliografía|bibliografia|references|referencias)`. -/
def matchesPat5 (l : List Char) : Bool :=
  ["bibliography", "bibliografía", "bibliografia", "references", "referencias"].any
    (fun kw => (ciDropKeyword kw.data l).isSome)

/-- Pattern `^(?:prologue|prólogo|prologo|preface|prefacio)`. -/
def matchesPat6 (l : List Char) : Bool :=
  ["prologue", "prólogo", "prologo", "preface", "prefacio"].any
    (fun kw => (ciDropKeyword kw.data l).isSome)

/-- Disjunction of the six patterns (the `'|'.join` of CHAPTER_PATTERNS,
matched with `re.match`). -/
def matchesChapterPattern (s : String) : Bool :=
  matchesPat1 s.data || matchesPat2 s.data || matchesPat3 s.data ||
  matchesPat4 s.data || matchesPat5 s.data || matchesPat6 s.data

/-- Python `_detect_chapter_breaks`: first matching stripped line among
the first 10 lines of a page records a break with the line's first 80
characters as label. -/
def detect_chapter_breaks (pages : List Page) : List ChapterBreak :=
  pages.filterMap (fun p =>
    ((pySplitLines p.text).take 10).findSome? (fun line =>
      let stripped := pstrip line
      if stripped ≠ "" ∧ matchesChapterPattern stripped then
        some ⟨p.page_num, ⟨stripped.data.take 80⟩⟩
      else none))

/-! ## Sectioning (`_split_at_chapters`) -/

/-- Python dict lookup `break_labels.get(n, "")` where the dict is built
left to right (later entries overwrite earlier ones). -/
def breakLabelFor (breaks : List ChapterBreak) (n : Nat) : String :=
  match breaks.reverse.find? (fun b => b.page_num = n) with
  | some b => b.label
  | none => ""

/-- Loop body of `_split_at_chapters` for a nonempty break list; carries
the `current_pages` list and `current_label`.  The Python loop flushes
`current_pages` (recording its first page's number as `start_page`) when
it is nonempty and the page is a break page, updates the label on break
pages, and always appends the page; the four cases spell out empty
versus nonempty `current_pages`. -/
def sacGo (bps : List Nat) (bl : Nat → String) :
    List Page → List Page → String → List TextSection
  | [], [], _ => []
  | [], p :: cur, label => [⟨p :: cur, label, p.page_num⟩]
  | page :: rest, [], label =>
    if bps.contains page.page_num then
      sacGo bps bl rest [page] (bl page.page_num)
    else
      sacGo bps bl rest [page] label
  | page :: rest, p :: cur, label =>
    if bps.contains page.page_num then
      ⟨p :: cur, label, p.page_num⟩ :: sacGo bps bl rest [page] (bl page.page_num)
    else
      sacGo bps bl rest ((p :: cur) ++ [page]) label

/-- Python `_split_at_chapters`. -/
def split_at_chapters (pages : List Page) (breaks : List ChapterBreak) :
    List TextSection :=
  if breaks = [] then
    [⟨pages, "", match pages with | [] => 1 | p :: _ => p.page_num⟩]
  else
    sacGo (breaks.map (·.page_num)) (breakLabelFor breaks) pages [] ""

/-! ## Paragraph splitting (`re.split(r'\n\s*\n', full_text)`)

The separator regex matches a newline, a greedy run of whitespace, and a
final newline (backtracking makes the separator end at the last newline
of the maximal whitespace run).  Fuel-based recursion keeps the function
kernel-evaluable; every step consumes at least one character, so fuel
`length + 1` is never exhausted. -/

/-- Fuel-based worker behind `pyParagraphs`. -/
def paraSplitGo : Nat → List Char → List Char → List String
  | 0, l, acc => [⟨acc.reverse ++ l⟩]
  | _ + 1, [], acc => [⟨acc.reverse⟩]
  | fuel + 1, c :: cs, acc =>
    if c = '\n' then
      let ws := cs.takeWhile isWS
      if ws.contains '\n' then
        let trail := (ws.reverse.takeWhile (fun d => d ≠ '\n')).reverse
        ⟨acc.reverse⟩ :: paraSplitGo fuel (trail ++ cs.drop ws.length) []
      else paraSplitGo fuel cs ('\n' :: acc)
    else paraSplitGo fuel cs (c :: acc)

/-- Python `re.split(r'\n\s*\n', full_text)`. -/
def pyParagraphs (s : String) : List String :=
  paraSplitGo (s.data.length + 1) s.data []

/-! ## Intra-section splitting (`_split_section`) -/

/-- Python `"\n\n".join(...)`. -/
def joinParas (l : List String) : String :=
  String.intercalate "\n\n" l

/-- Greedy paragraph-accumulation loop of `_split_section` (lines
136-157).  `first` records whether `sub_chunks` is still empty, which is
what decides the chapter label of a flushed sub-chunk; note that the
trailing flush (lines 151-157) always writes an empty label, exactly as
the source does. -/
def greedyGo (target : Nat) (startP endP : Nat) (label : String) :
    List String → List String → Nat → Bool → List SubChunk
  | [], current, _, _ =>
    match current with
    | [] => []
    | _ :: _ => [⟨joinParas current, startP, endP, ""⟩]
  | para :: rest, current, curWords, first =>
    let pw := wordCount para
    if curWords + pw > target ∧ current ≠ [] then
      ⟨joinParas current, startP, endP, if first then label else ""⟩ ::
        greedyGo target startP endP label rest [para] pw false
    else
      greedyGo target startP endP label rest (current ++ [para]) (curWords + pw) first

/-- Python `_split_section`.  Two translation notes: (1) the Python
condition `word_count <= target_words * 1.3` uses the float `1.3`, which
is slightly above 13/10; for an integer comparison the float test agrees
with `10 * word_count ≤ 13 * target_words` because the excess is far
below the distance to the next integer, so the integer form is the exact
semantics. (2) `section["pages"][-1]` raises `IndexError` on an empty
page list; the raise is modelled by `none`. -/
def split_section (s : TextSection) (target_words : Nat) : Option (List SubChunk) :=
  match s.pages.getLast? with
  | none => none
  | some lastPage =>
    let full_text := String.intercalate "\n\n" (s.pages.map (·.text))
    if 10 * wordCount full_text ≤ 13 * target_words then
      some [⟨full_text, s.start_page, lastPage.page_num, s.chapter_label⟩]
    else
      some (greedyGo target_words s.start_page lastPage.page_num s.chapter_label
              (pyParagraphs full_text) [] 0 true)

/-- The `for section in sections` loop of `chunk_text`: split every
section in order, propagating a raise (`none`) from any section. -/
def splitAllSections (target_words : Nat) :
    List TextSection → Option (List (List SubChunk))
  | [] => some []
  | s :: rest =>
    match split_section s target_words, splitAllSections target_words rest with
    | some l, some ls => some (l :: ls)
    | _, _ => none

/-- Python `chunk_text`: detect breaks, section the pages, split every
section, and assign `index = len(chunks)` at emission, i.e. the position
in the concatenated emission order.  A `none` anywhere (empty section)
models the `IndexError` escaping `chunk_text`. -/
def chunk_text (pages : List Page) (target_words : Nat) : Option (List Chunk) :=
  let breaks := detect_chapter_breaks pages
  let sections := split_at_chapters pages breaks
  match splitAllSections target_words sections with
  | none => none
  | some nested =>
    some ((nested.flatten).enum.map (fun p =>
      { index := p.1, text := p.2.text, start_page := p.2.start_page,
        end_page := p.2.end_page, chapter_label := p.2.chapter_label,
        word_count := wordCount p.2.text }))

/-! ## Translator (src/core/translator.py)

The remote call is modelled by an oracle giving the outcome of each
attempt; `asyncio.sleep` calls are recorded in a delay trace.  The
orchestrator's concurrent completion is modelled by an explicit
completion order (any permutation of the chunk list): the event loop
executes the per-task writes `results[chunk.index] = result`
sequentially in completion order. -/

/-- Outcome of one `client.messages.create` attempt. -/
inductive CallOutcome where
  | success (text : String)
  | rateLimited
  | failure (err : String)
deriving DecidableEq, Repr

/-- TranslationResult dataclass. -/
structure TranslationResult where
  chunk_index : Nat
  original_text : String
  translated_text : String
  success : Bool := true
  error : String := ""
deriving DecidableEq, Repr

/-- Retry loop of `_translate_single` (lines 100-134); `remaining` is
`max_retries - attempt`, so `remaining = 0` is the last attempt.  The
second component is the trace of `asyncio.sleep` delays. -/
def tsGo (oracle : Nat → CallOutcome) (c : Chunk) :
    Nat → Nat → TranslationResult × List Nat
  | attempt, remaining =>
    match oracle attempt with
    | .success t =>
      ({ chunk_index := c.index, original_text := c.text, translated_text := t }, [])
    | .rateLimited =>
      match remaining with
      | 0 => ({ chunk_index := c.index, original_text := c.text,
                translated_text := "", success := false,
                error := "Rate limited after retries" }, [])
      | r + 1 =>
        let p := tsGo oracle c (attempt + 1) r
        (p.1, 5 * (attempt + 1) :: p.2)
    | .failure e =>
      match remaining with
      | 0 => ({ chunk_index := c.index, original_text := c.text,
                translated_text := "", success := false, error := e }, [])
      | r + 1 =>
        let p := tsGo oracle c (attempt + 1) r
        (p.1, 2 :: p.2)

/-- Python `Translator._translate_single` with its retry budget. -/
def translate_single (oracle : Nat → CallOutcome) (c : Chunk)
    (max_retries : Nat) : TranslationResult × List Nat :=
  tsGo oracle c 0 max_retries

/-- Python `Translator.translate_chunks`: a pre-sized `results` array of
`None` slots, each completing task writing `results[chunk.index]`;
`order` is the completion order of the tasks. -/
def translate_chunks (oracle : Chunk → Nat → CallOutcome) (max_retries : Nat)
    (chunks : List Chunk) (order : List Chunk) : List (Option TranslationResult) :=
  order.foldl
    (fun results c =>
      results.set c.index (some (translate_single (oracle c) c max_retries).1))
    (List.replicate chunks.length none)

/-! ## Image handling (src/core/image_handler.py, src/app.py) -/

/-- ImageInfo dataclass (the raw bytes are irrelevant to the associations
proved here and are kept as an abstract payload list). -/
structure ImageInfo where
  page_num : Nat
  image_data : List Nat := []
  width : Nat := 0
  height : Nat := 0
  temp_path : String := ""
deriving DecidableEq, Repr

/-- Python `get_images_for_range`. -/
def get_images_for_range (images : List ImageInfo) (start_page end_page : Nat) :
    List ImageInfo :=
  images.filter (fun img => start_page ≤ img.page_num && img.page_num ≤ end_page)

/-- The per-chunk image filter in src/app.py (lines 417-418):
`[img for img in images if chunk.start_page <= img.page_num <= chunk.end_page]`. -/
def chunkImagesApp (images : List ImageInfo) (c : Chunk) : List ImageInfo :=
  images.filter (fun img => c.start_page ≤ img.page_num && img.page_num ≤ c.end_page)

/-! ## PDF builder (src/core/pdf_builder.py)

The layout engine calls (fonts, margins, page breaks) are external; the
embedding records the stream of typed document elements the builder
emits, plus the `_chapters` list and `_last_chapter` deduplication state
that the source keeps on the `PDFBuilder` object. -/

/-- One parsed layout unit emitted by the builder. -/
inductive DocElement where
  | chapterEl (label title : String)
  | sectionEl (title : String)
  | subsectionEl (title : String)
  | paragraphEl (text : String)
  | epigraphEl (text : String)
  | numberedEl (text : String)
  | indentedEl (text : String)
  | italicEl (text : String)
  | titlePageEl
  | imageEl
deriving DecidableEq, Repr

/-- The PDFBuilder state relevant to element emission. -/
structure BuilderState where
  title : String := "Translated Document"
  author : String := ""
  chapters : List (String × String) := []
  last_chapter : Option String := none
  elements : List DocElement := []
deriving DecidableEq, Repr

/-- Python `PDFBuilder.add_chapter` (lines 79-100): duplicate suppression
keyed on the string `f"{label}|{title}"` compared with `_last_chapter`. -/
def add_chapter (st : BuilderState) (label title : String) : BuilderState :=
  let key := label ++ "|" ++ title
  if st.last_chapter = some key then st
  else { st with last_chapter := some key,
                 chapters := st.chapters ++ [(label, title)],
                 elements := st.elements ++ [.chapterEl label title] }

/-- Python `PDFBuilder.add_title_page`. -/
def add_title_page (st : BuilderState) : BuilderState :=
  { st with elements := st.elements ++ [.titlePageEl] }

/-- Python `PDFBuilder.add_section`. -/
def add_section (st : BuilderState) (t : String) : BuilderState :=
  { st with elements := st.elements ++ [.sectionEl t] }

/-- Python `PDFBuilder.add_subsection`. -/
def add_subsection (st : BuilderState) (t : String) : BuilderState :=
  { st with elements := st.elements ++ [.subsectionEl t] }

/-- Python `PDFBuilder.add_paragraph`. -/
def add_paragraph (st : BuilderState) (t : String) : BuilderState :=
  { st with elements := st.elements ++ [.paragraphEl t] }

/-- Python `PDFBuilder.add_epigraph`. -/
def add_epigraph (st : BuilderState) (t : String) : BuilderState :=
  { st with elements := st.elements ++ [.epigraphEl t] }

/-- Python `PDFBuilder.add_numbered`. -/
def add_numbered (st : BuilderState) (t : String) : BuilderState :=
  { st with elements := st.elements ++ [.numberedEl t] }

/-- Python `PDFBuilder.add_indented`. -/
def add_indented (st : BuilderState) (t : String) : BuilderState :=
  { st with elements := st.elements ++ [.indentedEl t] }

/-- Python `PDFBuilder.add_italic_paragraph`. -/
def add_italic_paragraph (st : BuilderState) (t : String) : BuilderState :=
  { st with elements := st.elements ++ [.italicEl t] }

/-- Python `PDFBuilder.add_image` (only the emission is modelled). -/
def add_image (st : BuilderState) : BuilderState :=
  { st with elements := st.elements ++ [.imageEl] }

/-! ### Line matchers of `render_translated_text`

Each `re.match` in the parser is translated to a matcher over the
line's characters.  None of the keyword alternations contains one
alternative that is a case-insensitive prefix of another, so first-match
alternation needs no backtracking into a later alternative. -/

/-- Python `s.endswith(p)`. -/
def pyEndsWith (s p : String) : Bool :=
  startsWithL s.data.reverse p.data.reverse

/-- Python `s.strip('*')`. -/
def stripStars (s : String) : String :=
  ⟨((s.data.dropWhile (· = '*')).reverse.dropWhile (· = '*')).reverse⟩

/-- Python `s.rstrip('*')`. -/
def rstripStars (s : String) : String :=
  ⟨(s.data.reverse.dropWhile (· = '*')).reverse⟩

/-- Regex fragment `^#?\s*` (also `re.sub(r'^#?\s*', '', line)`). -/
def dropHashWs (l : List Char) : List Char :=
  (match l with | '#' :: rest => rest | _ => l).dropWhile isWS

/-- Character class `[:—–-]` used after chapter/appendix numbers. -/
def isChapPunct (c : Char) : Bool :=
  c = ':' || c = '—' || c = '–' || c = '-'

/-- Remainder after `\s*(?:\(.*?\))?\s*(?:[:—–-]?\s*)`, the tail shared
by the chapter and appendix header regexes. -/
def dropPunctTail (r2 : List Char) : List Char :=
  let r3 := match r2 with
            | '(' :: inner =>
              if inner.contains ')' then (inner.dropWhile (· ≠ ')')).drop 1
              else '(' :: inner
            | _ => r2
  let r4 := r3.dropWhile isWS
  match r4 with
  | c :: tl => if isChapPunct c then tl.dropWhile isWS else r4
  | [] => []

/-- Chapter header regex of pdf_builder lines 210-212: keyword, `\s+`,
digits, optional parenthetical, optional separator punctuation, rest.
Returns (chapter number, group 2). -/
def matchChapterLine (s : String) : Option (String × String) :=
  let l := dropHashWs s.data
  ["capítulo", "capitulo", "chapter", "chapitre", "kapitel", "capitolo"].findSome?
    (fun kw =>
      match ciDropKeyword kw.data l with
      | none => none
      | some r =>
        match r with
        | [] => none
        | c :: _ =>
          if isWS c then
            let r1 := r.dropWhile isWS
            let num := r1.takeWhile (·.isDigit)
            match num with
            | [] => none
            | _ =>
              let r2 := (r1.dropWhile (·.isDigit)).dropWhile isWS
              some (⟨num⟩, ⟨dropPunctTail r2⟩)
          else none)

/-- Standalone chapter number regex of lines 230-232:
`^(?:CAPÍTULO|Capítulo|Capitulo|CHAPTER|Chapter)\s+(\d+)\s*$`. -/
def matchChapterLine2 (s : String) : Option String :=
  ["capítulo", "capitulo", "chapter"].findSome? (fun kw =>
    match ciDropKeyword kw.data s.data with
    | none => none
    | some r =>
      match r with
      | [] => none
      | c :: _ =>
        if isWS c then
          let r1 := r.dropWhile isWS
          let num := r1.takeWhile (·.isDigit)
          if num ≠ [] ∧ (r1.dropWhile (·.isDigit)).dropWhile isWS = [] then
            some ⟨num⟩
          else none
        else none)

/-- Epilogue heading test (line 249). -/
def isEpilogueLine (s : String) : Bool :=
  (ciDropAlts ["epílogo", "epilogo", "epilogue"] (dropHashWs s.data)).isSome

/-- Bibliography heading test (lines 273-274). -/
def isBibliographyLine (s : String) : Bool :=
  (ciDropAlts ["bibliografía", "bibliography", "références", "referenzen"]
    (dropHashWs s.data)).isSome

/-- Python `title.split(sep, 1)` guarded by `sep in title`. -/
def pySplitOnce (s : String) (sep : Char) : Option (String × String) :=
  if s.data.contains sep then
    some (⟨s.data.takeWhile (· ≠ sep)⟩, ⟨(s.data.dropWhile (· ≠ sep)).drop 1⟩)
  else none

/-- Character class `[A-Z\d]` under `re.IGNORECASE`. -/
def isAlnumAZ (d : Char) : Bool :=
  d.isDigit || ('a' ≤ charLower d && charLower d ≤ 'z')

/-- Appendix header regex of lines 263-265.  Returns (group 1, group 2). -/
def matchAppendixLine (s : String) : Option (String × String) :=
  ["apéndice", "apendice", "appendix", "annexe"].findSome? (fun kw =>
    match ciDropKeyword kw.data (dropHashWs s.data) with
    | none => none
    | some r =>
      match r with
      | [] => none
      | c :: _ =>
        if isWS c then
          let r1 := r.dropWhile isWS
          let grp := r1.takeWhile isAlnumAZ
          match grp with
          | [] => none
          | _ =>
            let r2 := (r1.dropWhile isAlnumAZ).dropWhile isWS
            let r3 := match r2 with
                      | c2 :: tl => if isChapPunct c2 then tl.dropWhile isWS else r2
                      | [] => []
            some (⟨grp⟩, ⟨r3⟩)
        else none)

/-- Section header regex `^##\s+(.*)` (line 281). -/
def matchSectionHeader (s : String) : Option String :=
  match s.data with
  | '#' :: '#' :: rest =>
    match rest with
    | c :: _ => if isWS c then some ⟨rest.dropWhile isWS⟩ else none
    | [] => none
  | _ => none

/-- Standalone bold line regex `^\*\*([^*]+)\*\*\s*$` (line 288). -/
def matchBoldSection (s : String) : Option String :=
  match s.data with
  | '*' :: '*' :: rest =>
    let t := rest.takeWhile (· ≠ '*')
    (match t, rest.dropWhile (· ≠ '*') with
     | _ :: _, '*' :: '*' :: tail =>
       if tail.all isWS then some ⟨t⟩ else none
     | _, _ => none)
  | _ => none

/-- Bold label regex `^\*\*([^*]+)\*\*\s*(.*)` (line 295), refuting the
match when group 2 is empty exactly as the `and bold_para.group(2)`
guard does.  Returns (group 1, group 2). -/
def matchBoldPara (s : String) : Option (String × String) :=
  match s.data with
  | '*' :: '*' :: rest =>
    let t := rest.takeWhile (· ≠ '*')
    (match t, rest.dropWhile (· ≠ '*') with
     | _ :: _, '*' :: '*' :: tail =>
       let g2 := tail.dropWhile isWS
       (match g2 with
        | [] => none
        | _ => some (⟨t⟩, ⟨g2⟩))
     | _, _ => none)
  | _ => none

/-- Numbered item regex `^(\d+)\.\s+(.*)` (line 326). -/
def matchNumbered (s : String) : Option (String × String) :=
  let num := s.data.takeWhile (·.isDigit)
  match num with
  | [] => none
  | _ =>
    match s.data.dropWhile (·.isDigit) with
    | '.' :: rest =>
      (match rest with
       | c :: _ => if isWS c then some (⟨num⟩, ⟨rest.dropWhile isWS⟩) else none
       | [] => none)
    | _ => none

/-- Lettered item regex `^([A-Z])\.\s+(.*)` (line 341, case-sensitive). -/
def matchLettered (s : String) : Option (String × String) :=
  match s.data with
  | c :: '.' :: rest =>
    if 'A' ≤ c ∧ c ≤ 'Z' then
      match rest with
      | d :: _ => if isWS d then some (⟨[c]⟩, ⟨rest.dropWhile isWS⟩) else none
      | [] => none
    else none
  | _ => none

/-- Break test `re.match(r'^\d+\.', nl)`. -/
def startsNumberedDot (s : String) : Bool :=
  s.data.takeWhile (·.isDigit) ≠ [] &&
  (s.data.dropWhile (·.isDigit)).head? = some '.'

/-- Break test `re.match(r'^\d+\.\s', nl)`. -/
def startsNumberedDotWs (s : String) : Bool :=
  s.data.takeWhile (·.isDigit) ≠ [] &&
  (match s.data.dropWhile (·.isDigit) with
   | '.' :: d :: _ => isWS d
   | _ => false)

/-- Break test `re.match(r'^[A-Z]\.', nl)`. -/
def startsLetterDot (s : String) : Bool :=
  match s.data with
  | c :: '.' :: _ => decide ('A' ≤ c ∧ c ≤ 'Z')
  | _ => false

/-- Break test `re.match(r'^[A-Z]\.\s', nl)`. -/
def startsLetterDotWs (s : String) : Bool :=
  match s.data with
  | c :: '.' :: d :: _ => decide ('A' ≤ c ∧ c ≤ 'Z') && isWS d
  | _ => false

/-! ### Inline substitutions and continuation collectors -/

/-- Fuel-based scanner for `re.sub(r'\*\*([^*]+)\*\*', r'\1', full)`;
every recursive call is on a strictly shorter list, so fuel equal to the
length is enough. -/
def subBoldGo : Nat → List Char → List Char
  | 0, l => l
  | fuel + 1, l =>
    match l with
    | '*' :: '*' :: rest =>
      let t := rest.takeWhile (· ≠ '*')
      (match t, rest.dropWhile (· ≠ '*') with
       | _ :: _, '*' :: '*' :: tail => t ++ subBoldGo fuel tail
       | _, _ => '*' :: subBoldGo fuel ('*' :: rest))
    | c :: rest => c :: subBoldGo fuel rest
    | [] => []

/-- Python `re.sub(r'\*\*([^*]+)\*\*', r'\1', s)`. -/
def pyBoldSub (s : String) : String :=
  ⟨subBoldGo s.data.length s.data⟩

/-- Fuel-based scanner for `re.sub(r'\*([^*]+)\*', r'\1', full)`. -/
def subItalicGo : Nat → List Char → List Char
  | 0, l => l
  | fuel + 1, l =>
    match l with
    | '*' :: rest =>
      let t := rest.takeWhile (· ≠ '*')
      (match t, rest.dropWhile (· ≠ '*') with
       | _ :: _, '*' :: tail => t ++ subItalicGo fuel tail
       | _, _ => '*' :: subItalicGo fuel rest)
    | c :: rest => c :: subItalicGo fuel rest
    | [] => []

/-- Python `re.sub(r'\*([^*]+)\*', r'\1', s)`. -/
def pyItalicSub (s : String) : String :=
  ⟨subItalicGo s.data.length s.data⟩

/-- Break condition of the bold-label continuation loop (line 302). -/
def boldParaBreak (nl : String) : Bool :=
  nl = "" || pyStartsWith nl "#" || pyStartsWith nl "**" ||
  pyStartsWith nl "====" || startsNumberedDot nl

/-- Break condition of the numbered-item continuation loop (line 332). -/
def numberedBreak (nl : String) : Bool :=
  nl = "" || startsNumberedDot nl || pyStartsWith nl "#" || pyStartsWith nl "**"

/-- Break condition of the lettered-item continuation loop (line 347). -/
def letteredBreak (nl : String) : Bool :=
  nl = "" || startsLetterDot nl || pyStartsWith nl "#" || pyStartsWith nl "**"

/-- Break condition of the plain-paragraph continuation loop
(lines 372-377). -/
def paraBreak (nl : String) : Bool :=
  nl = "" || pyStartsWith nl "#" || pyStartsWith nl "====" ||
  pyStartsWith nl "---" || pyStartsWith nl "**" || startsNumberedDotWs nl ||
  startsLetterDotWs nl || pyStartsWith nl "*\"" || pyStartsWith nl "*«"

/-- Shared shape of the `while j < len(lines)` continuation loops:
collect stripped continuation lines until the break condition, and
report how many lines were consumed. -/
def collectCont (breakFn : String → Bool) : List String → List String × Nat
  | [] => ([], 0)
  | line :: rest =>
    let nl := pstrip line
    if breakFn nl then ([], 0)
    else
      let p := collectCont breakFn rest
      (nl :: p.1, p.2 + 1)

/-- Python `for nl in collected: text += ' ' + nl`. -/
def appendSpaced (base : String) (ls : List String) : String :=
  ls.foldl (fun a b => a ++ " " ++ b) base

/-- Look-ahead used by the chapter branches when the heading line carries
no title: skip blank and `====` lines, take the first remaining stripped
line as the title, and report how many lines (through the title line)
were consumed. -/
def lookaheadTitle : List String → Option (String × Nat)
  | [] => none
  | line :: rest =>
    let nl := pstrip line
    if nl ≠ "" ∧ ¬ pyStartsWith nl "====" then some (nl, 1)
    else
      match lookaheadTitle rest with
      | some (t, k) => some (t, k + 1)
      | none => none

/-! ### The render loop -/

/-- One pass of `render_translated_text`'s `while i < len(lines)` loop,
with the original line kept alongside its stripped form where the source
consults `lines[i]` unstripped.  Fuel: every recursive call is on a
strict suffix of the line list, so `length + 1` is never exhausted. -/
def renderGo : Nat → BuilderState → List String → BuilderState
  | 0, st, _ => st
  | _ + 1, st, [] => st
  | fuel + 1, st, line0 :: rest =>
    let line := pstrip line0
    if line = "" || pyStartsWith line "====" || line = "---" then
      renderGo fuel st rest
    else if pyStartsWith line "Now let me" || pyStartsWith line "Let me" then
      renderGo fuel st rest
    else
      match matchChapterLine line with
      | some (num, g2) =>
        let title0 := pstrip (rstripStars (pstrip g2))
        if title0 = "" then
          match lookaheadTitle rest with
          | some (t, k) =>
            renderGo fuel (add_chapter st ("Chapter " ++ num) t) (rest.drop k)
          | none => renderGo fuel (add_chapter st ("Chapter " ++ num) "") rest
        else renderGo fuel (add_chapter st ("Chapter " ++ num) title0) rest
      | none =>
      match matchChapterLine2 line with
      | some num =>
        (match lookaheadTitle rest with
         | some (t, k) =>
           renderGo fuel (add_chapter st ("Chapter " ++ num) t) (rest.drop k)
         | none => renderGo fuel (add_chapter st ("Chapter " ++ num) "") rest)
      | none =>
      if isEpilogueLine line then
        let title := pstrip ⟨dropHashWs line.data⟩
        let st' :=
          match pySplitOnce title ':' with
          | some (a, b) => add_chapter st (pstrip a) (pstrip b)
          | none =>
            match pySplitOnce title '—' with
            | some (a, b) => add_chapter st (pstrip a) (pstrip b)
            | none => add_chapter st "" title
        renderGo fuel st' rest
      else
      match matchAppendixLine line with
      | some (g1, g2) =>
        renderGo fuel (add_chapter st ("Appendix " ++ g1) (pstrip g2)) rest
      | none =>
      if isBibliographyLine line then
        let title := pstrip ⟨dropHashWs line.data⟩
        renderGo fuel
          (add_chapter st "" (if title = "" then "Bibliography" else title)) rest
      else
      match matchSectionHeader line with
      | some t => renderGo fuel (add_section st (pstrip t)) rest
      | none =>
      match matchBoldSection line with
      | some t => renderGo fuel (add_subsection st (pstrip t)) rest
      | none =>
      match matchBoldPara line with
      | some (g1, g2) =>
        let label := pstrip g1
        let p := collectCont boldParaBreak rest
        let restText := appendSpaced (pstrip g2) p.1
        renderGo fuel (add_paragraph st (label ++ ": " ++ restText)) (rest.drop p.2)
      | none =>
      if pyStartsWith line "*\"" || pyStartsWith line "*«" ||
         (pyStartsWith line "\"" && pyEndsWith line "*") then
        let quote := pstrip (stripStars line)
        (match rest with
         | next :: rest2 =>
           if pyStartsWith (pstrip next) "—" then
             renderGo fuel (add_epigraph st (quote ++ " " ++ pstrip next)) rest2
           else renderGo fuel (add_epigraph st quote) rest
         | [] => renderGo fuel (add_epigraph st quote) rest)
      else if pyStartsWith line "\"" &&
              (pyContainsChar line '—' || pyContainsChar line '–') then
        renderGo fuel (add_epigraph st line) rest
      else
      match matchNumbered line with
      | some (n, g2) =>
        let p := collectCont numberedBreak rest
        renderGo fuel (add_numbered st (appendSpaced (n ++ ". " ++ g2) p.1))
          (rest.drop p.2)
      | none =>
      match matchLettered line, decide (line.length > 5) with
      | some (ltr, g2), true =>
        let p := collectCont letteredBreak rest
        renderGo fuel (add_indented st (appendSpaced (ltr ++ ". " ++ g2) p.1))
          (rest.drop p.2)
      | _, _ =>
      if pyStartsWith line "*" && pyEndsWith line "*" && ¬ pyStartsWith line "**" then
        renderGo fuel (add_italic_paragraph st (pstrip (stripStars line))) rest
      else if pyStartsWith line "  " && pyContainsChar line0 ':' then
        renderGo fuel (add_indented st (pstrip line)) rest
      else
        let p := collectCont paraBreak rest
        let full := pyItalicSub (pyBoldSub (appendSpaced line p.1))
        let st' := if pstrip full ≠ "" then add_paragraph st full else st
        renderGo fuel st' (rest.drop p.2)

/-- Python `PDFBuilder.render_translated_text`. -/
def render_translated_text (st : BuilderState) (text : String) : BuilderState :=
  let lines := pySplitLines text
  renderGo (lines.length + 1) st lines

/-! ## Basic facts about the builder -/

/-- Recognizer for chapter layout elements. -/
def isChapterEl : DocElement → Bool
  | .chapterEl _ _ => true
  | _ => false

/-- Character list spelling `n` whitespace-separated words (" w" times
`n`), used to build a concrete 6500-word section text. -/
def mkWordsChars : Nat → List Char
  | 0 => []
  | n + 1 => ' ' :: 'w' :: mkWordsChars n

/-- A concrete single-paragraph text of exactly 6500 words. -/
def bigText6500 : String :=
  ⟨mkWordsChars 6500⟩

/-! ## Claim C2 -/

/-- C2: the claim says `chunk_text` on the empty page list returns the
empty chunk list without raising.  In fact `_split_at_chapters` produces
one synthetic section with an empty page list, and `_split_section` then
evaluates `section["pages"][-1]`, raising `IndexError` (modelled as
`none`): the code raises instead of returning `[]`, for every target
word count. -/
theorem chunk_text_empty_raises (target_words : Nat) :
    chunk_text [] target_words = none := rfl

/-! ## Claims C8 and C10: `add_chapter` deduplication -/

/-- C8: starting from any builder state whose last-chapter key differs
from `label|title`, two consecutive `add_chapter` calls with the same
label and title emit exactly one chapter layout element, and the second
call changes nothing at all; moreover, re-detecting the same heading at
the start of the next chunk's translated text (the spec's
`"Chapter 3"` example, rendered over two chunks) also yields exactly one
chapter element. -/
theorem add_chapter_duplicate_suppressed (st : BuilderState) (label title : String)
    (h : st.last_chapter ≠ some (label ++ "|" ++ title)) :
    add_chapter (add_chapter st label title) label title = add_chapter st label title ∧
    (add_chapter (add_chapter st label title) label title).elements =
      st.elements ++ [DocElement.chapterEl label title] ∧
    ((render_translated_text
        (render_translated_text {} "Chapter 3: The End\nFirst chunk body.\n")
        "Chapter 3: The End\nSecond chunk body.\n").elements.countP isChapterEl) = 1 := by
  refine ⟨?_, ?_, by decide⟩
  · unfold add_chapter
    rw [if_neg h]
    simp
  · unfold add_chapter
    rw [if_neg h]
    simp

/-- Witness for C8 at a concrete state and heading. -/
theorem add_chapter_duplicate_suppressed_witness :
    ({} : BuilderState).last_chapter ≠ some ("Chapter 3" ++ "|" ++ "The End") ∧
    (add_chapter (add_chapter {} "Chapter 3" "The End") "Chapter 3" "The End" =
      add_chapter {} "Chapter 3" "The End" ∧
    (add_chapter (add_chapter {} "Chapter 3" "The End") "Chapter 3" "The End").elements =
      ({} : BuilderState).elements ++ [DocElement.chapterEl "Chapter 3" "The End"] ∧
    ((render_translated_text
        (render_translated_text {} "Chapter 3: The End\nFirst chunk body.\n")
        "Chapter 3: The End\nSecond chunk body.\n").elements.countP isChapterEl) = 1) :=
  ⟨by decide, add_chapter_duplicate_suppressed {} "Chapter 3" "The End" (by decide)⟩

/-- C10: `add_chapter` deduplicates on the concatenated key
`label ++ "|" ++ title`, so whenever two distinct (label, title) pairs
produce the same concatenation, the second chapter is suppressed even
though it differs from the preceding one as a pair. -/
theorem add_chapter_key_collision (st : BuilderState) (l1 t1 l2 t2 : String)
    (hcol : l1 ++ "|" ++ t1 = l2 ++ "|" ++ t2) :
    add_chapter (add_chapter st l1 t1) l2 t2 = add_chapter st l1 t1 := by
  unfold add_chapter
  by_cases h1 : st.last_chapter = some (l1 ++ "|" ++ t1)
  · rw [if_pos h1, if_pos (by rw [h1, hcol])]
  · rw [if_neg h1]
    simp [← hcol]

/-- Witness for C10: the pair ("a|b", "c") differs from ("a", "b|c") but
is suppressed right after it. -/
theorem add_chapter_key_collision_witness :
    add_chapter (add_chapter {} "a" "b|c") "a|b" "c" = add_chapter {} "a" "b|c" ∧
    ¬ (("a|b" : String) = "a" ∧ ("c" : String) = "b|c") :=
  ⟨add_chapter_key_collision {} "a" "b|c" "a|b" "c" (by decide), by decide⟩

/-! ## Claim C5: retry policy of `_translate_single` -/

/-- The result of the retry loop always carries its own chunk's index
(and original text), whatever the attempt outcomes are. -/
lemma tsGo_chunk_index (oracle : Nat → CallOutcome) (c : Chunk) :
    ∀ remaining attempt, (tsGo oracle c attempt remaining).1.chunk_index = c.index ∧
      (tsGo oracle c attempt remaining).1.original_text = c.text := by
  intro remaining
  induction remaining with
  | zero =>
    intro attempt
    cases h : oracle attempt <;> simp [tsGo, h]
  | succ r ih =>
    intro attempt
    cases h : oracle attempt <;> simp [tsGo, h]
    · exact ⟨(ih (attempt + 1)).1, (ih (attempt + 1)).2⟩
    · exact ⟨(ih (attempt + 1)).1, (ih (attempt + 1)).2⟩

/-- On an all-rate-limited oracle the loop sleeps `5*(attempt+1)` before
each retry and ends with the rate-limit failure result. -/
lemma tsGo_rate_limited (oracle : Nat → CallOutcome)
    (hrl : ∀ k, oracle k = .rateLimited) (c : Chunk) :
    ∀ remaining attempt, tsGo oracle c attempt remaining =
      ({ chunk_index := c.index, original_text := c.text, translated_text := "",
         success := false, error := "Rate limited after retries" },
       (List.range remaining).map (fun k => 5 * (attempt + k + 1))) := by
  intro remaining
  induction remaining with
  | zero => intro attempt; simp [tsGo, hrl]
  | succ r ih =>
    intro attempt
    rw [List.range_succ_eq_map]
    simp only [tsGo, hrl, ih (attempt + 1), List.map_cons, List.map_map]
    refine congrArg (Prod.mk _) ?_
    refine congrArg (List.cons _) ?_
    refine List.map_congr_left (fun k _ => ?_)
    simp [Function.comp, Nat.succ_eq_add_one]
    ring

/-- On an oracle that always fails with a non-rate-limit error the loop
sleeps the fixed 2 seconds before each retry and ends with that error. -/
lemma tsGo_generic_failure (oracle : Nat → CallOutcome) (e : String)
    (hf : ∀ k, oracle k = .failure e) (c : Chunk) :
    ∀ remaining attempt, tsGo oracle c attempt remaining =
      ({ chunk_index := c.index, original_text := c.text, translated_text := "",
         success := false, error := e },
       List.replicate remaining 2) := by
  intro remaining
  induction remaining with
  | zero => intro attempt; simp [tsGo, hf]
  | succ r ih => intro attempt; simp [tsGo, hf, ih (attempt + 1), List.replicate_succ]

/-- C5: `_translate_single` retry policy.  On rate-limit failures it
sleeps `5 * attempt-number` (linear backoff) before each of its
`max_retries` retries and, once exhausted, returns a failed
TranslationResult carrying the rate-limit error; on any other repeated
failure it sleeps the fixed 2-second delay before each of its
`max_retries` retries and returns a failed TranslationResult carrying
the failure description; and for every outcome oracle it returns a
TranslationResult for its own chunk (no exception escapes), so a failing
chunk's result is produced independently of every other chunk. -/
theorem translate_single_retry_policy (c : Chunk) (max_retries : Nat) (e : String)
    (oracleRL oracleF : Nat → CallOutcome)
    (hrl : ∀ k, oracleRL k = .rateLimited)
    (hf : ∀ k, oracleF k = .failure e) :
    translate_single oracleRL c max_retries =
      ({ chunk_index := c.index, original_text := c.text, translated_text := "",
         success := false, error := "Rate limited after retries" },
       (List.range max_retries).map (fun k => 5 * (k + 1))) ∧
    translate_single oracleF c max_retries =
      ({ chunk_index := c.index, original_text := c.text, translated_text := "",
         success := false, error := e },
       List.replicate max_retries 2) ∧
    (∀ oracle : Nat → CallOutcome,
      (translate_single oracle c max_retries).1.chunk_index = c.index ∧
      (translate_single oracle c max_retries).1.original_text = c.text) := by
  refine ⟨?_, ?_, ?_⟩
  · rw [translate_single, tsGo_rate_limited oracleRL hrl c max_retries 0]
    simp
  · exact tsGo_generic_failure oracleF e hf c max_retries 0
  · intro oracle
    exact tsGo_chunk_index oracle c max_retries 0

/-- Witness for C5 with two retries: delays [5, 10] for rate limiting,
delays [2, 2] for a generic failure. -/
theorem translate_single_retry_policy_witness :
    (∀ k, (fun _ : Nat => CallOutcome.rateLimited) k = CallOutcome.rateLimited) ∧
    (∀ k, (fun _ : Nat => CallOutcome.failure "boom") k = CallOutcome.failure "boom") ∧
    (translate_single (fun _ => CallOutcome.rateLimited) ⟨0, "t", 1, 1, "", 1⟩ 2 =
      ({ chunk_index := 0, original_text := "t", translated_text := "",
         success := false, error := "Rate limited after retries" },
       (List.range 2).map (fun k => 5 * (k + 1))) ∧
     translate_single (fun _ => CallOutcome.failure "boom") ⟨0, "t", 1, 1, "", 1⟩ 2 =
      ({ chunk_index := 0, original_text := "t", translated_text := "",
         success := false, error := "boom" },
       List.replicate 2 2) ∧
     (∀ oracle : Nat → CallOutcome,
       (translate_single oracle ⟨0, "t", 1, 1, "", 1⟩ 2).1.chunk_index = 0 ∧
       (translate_single oracle ⟨0, "t", 1, 1, "", 1⟩ 2).1.original_text = "t")) :=
  ⟨fun _ => rfl, fun _ => rfl,
   translate_single_retry_policy ⟨0, "t", 1, 1, "", 1⟩ 2 "boom" _ _
     (fun _ => rfl) (fun _ => rfl)⟩

/-! ## Claim C4: chapter labels on sub-chunks -/

/-- Once a first sub-chunk has been flushed (`first = false`), every
further sub-chunk the greedy loop emits carries the empty label (both
flush sites write `""` in that state). -/
lemma greedyGo_false_labels (target sp ep : Nat) (lb : String) :
    ∀ (paras current : List String) (cw : Nat),
      ∀ c ∈ greedyGo target sp ep lb paras current cw false, c.chapter_label = "" := by
  intro paras
  induction paras with
  | nil =>
    intro current cw c hc
    cases current with
    | nil => simp [greedyGo] at hc
    | cons a l =>
      simp [greedyGo] at hc
      simp [hc]
  | cons p rest ih =>
    intro current cw c hc
    rw [greedyGo] at hc
    by_cases h : cw + wordCount p > target ∧ current ≠ []
    · rw [if_pos h] at hc
      rcases List.mem_cons.mp hc with h1 | h2
      · simp [h1]
      · exact ih [p] (wordCount p) c h2
    · rw [if_neg h] at hc
      exact ih (current ++ [p]) (cw + wordCount p) c hc

/-- The greedy loop never returns an empty sub-chunk list unless both
the paragraph list and the current accumulation are empty. -/
lemma greedyGo_ne_nil (target sp ep : Nat) (lb : String) :
    ∀ (paras current : List String) (cw : Nat) (first : Bool),
      current ≠ [] ∨ paras ≠ [] →
      greedyGo target sp ep lb paras current cw first ≠ [] := by
  intro paras
  induction paras with
  | nil =>
    intro current cw first h
    cases current with
    | nil => rcases h with h | h <;> simp at h
    | cons a l => simp [greedyGo]
  | cons p rest ih =>
    intro current cw first _
    rw [greedyGo]
    by_cases h : cw + wordCount p > target ∧ current ≠ []
    · rw [if_pos h]; simp
    · rw [if_neg h]
      exact ih (current ++ [p]) (cw + wordCount p) first (Or.inl (by simp))

/-- When at least two sub-chunks come out of the greedy loop started
with `first = true`, the first one carries the section label. -/
lemma greedyGo_head_label (target sp ep : Nat) (lb : String) :
    ∀ (paras current : List String) (cw : Nat) (c0 : SubChunk) (l' : List SubChunk),
      greedyGo target sp ep lb paras current cw true = c0 :: l' → l' ≠ [] →
      c0.chapter_label = lb := by
  intro paras
  induction paras with
  | nil =>
    intro current cw c0 l' heq hne
    cases current with
    | nil => simp [greedyGo] at heq
    | cons a l =>
      simp [greedyGo] at heq
      exact absurd heq.2 hne
  | cons p rest ih =>
    intro current cw c0 l' heq hne
    rw [greedyGo] at heq
    by_cases h : cw + wordCount p > target ∧ current ≠ []
    · rw [if_pos h] at heq
      have h2 := (List.cons.injEq _ _ _ _).mp heq
      rw [← h2.1]
      simp
    · rw [if_neg h] at heq
      exact ih (current ++ [p]) (cw + wordCount p) c0 l' heq hne

/-- Every sub-chunk after the first one carries the empty label. -/
lemma greedyGo_tail_labels (target sp ep : Nat) (lb : String) :
    ∀ (paras current : List String) (cw : Nat) (c0 : SubChunk) (l' : List SubChunk),
      greedyGo target sp ep lb paras current cw true = c0 :: l' →
      ∀ c ∈ l', c.chapter_label = "" := by
  intro paras
  induction paras with
  | nil =>
    intro current cw c0 l' heq c hc
    cases current with
    | nil => simp [greedyGo] at heq
    | cons a l =>
      simp [greedyGo] at heq
      rw [heq.2] at hc
      simp at hc
  | cons p rest ih =>
    intro current cw c0 l' heq c hc
    rw [greedyGo] at heq
    by_cases h : cw + wordCount p > target ∧ current ≠ []
    · rw [if_pos h] at heq
      have := (List.cons.injEq _ _ _ _).mp heq
      rw [← this.2] at hc
      exact greedyGo_false_labels target sp ep lb rest [p] (wordCount p) c hc
    · rw [if_neg h] at heq
      exact ih (current ++ [p]) (cw + wordCount p) c0 l' heq c hc

/-- A split that produces exactly one sub-chunk produces it through the
trailing flush, which hardcodes the empty label. -/
lemma greedyGo_single_label (target sp ep : Nat) (lb : String) :
    ∀ (paras current : List String) (cw : Nat) (c0 : SubChunk),
      greedyGo target sp ep lb paras current cw true = [c0] →
      c0.chapter_label = "" := by
  intro paras
  induction paras with
  | nil =>
    intro current cw c0 heq
    cases current with
    | nil => simp [greedyGo] at heq
    | cons a l =>
      simp [greedyGo] at heq
      rw [← heq]
  | cons p rest ih =>
    intro current cw c0 heq
    rw [greedyGo] at heq
    by_cases h : cw + wordCount p > target ∧ current ≠ []
    · rw [if_pos h] at heq
      have h2 := (List.cons.injEq _ _ _ _).mp heq
      exact absurd h2.2
        (greedyGo_ne_nil target sp ep lb rest [p] (wordCount p) false (Or.inl (by simp)))
    · rw [if_neg h] at heq
      exact ih (current ++ [p]) (cw + wordCount p) c0 heq

/-- C4 as stated is false: a section over budget whose content all
reaches the trailing flush — a single oversized paragraph — takes the
splitting path but emits its one (first) sub-chunk with the empty label,
not the section's label `"Chapter 1"`. -/
theorem split_section_label_counterexample :
    split_section ⟨[⟨1, "a b c d e f g", false, 0⟩], "Chapter 1", 1⟩ 5 =
      some [⟨"a b c d e f g", 1, 1, ""⟩] ∧
    ¬ 10 * wordCount (String.intercalate "\n\n"
        (([⟨1, "a b c d e f g", false, 0⟩] : List Page).map (·.text))) ≤ 13 * 5 ∧
    ("" : String) ≠ "Chapter 1" := by decide

/-- C4 amended: for every section that takes the splitting path (total
words exceeding `target_words * 1.3`), every sub-chunk after the first
carries the empty label, and the first sub-chunk carries the section's
chapter label whenever at least two sub-chunks are emitted; when the
split emits a single sub-chunk (all paragraphs reach the trailing
flush), that sub-chunk carries the empty label. -/
theorem split_section_label_policy (s : TextSection) (target : Nat) (l : List SubChunk)
    (hsome : split_section s target = some l)
    (hpath : ¬ 10 * wordCount (String.intercalate "\n\n" (s.pages.map (·.text)))
               ≤ 13 * target) :
    (∀ c0 l', l = c0 :: l' → l' ≠ [] → c0.chapter_label = s.chapter_label) ∧
    (∀ c0 l', l = c0 :: l' → ∀ c ∈ l', c.chapter_label = "") ∧
    (∀ c0, l = [c0] → c0.chapter_label = "") := by
  unfold split_section at hsome
  cases hlast : s.pages.getLast? with
  | none => rw [hlast] at hsome; exact absurd hsome (by simp)
  | some lastP =>
    rw [hlast] at hsome
    simp only [if_neg hpath, Option.some.injEq] at hsome
    refine ⟨?_, ?_, ?_⟩
    · intro c0 l' hl hne
      exact greedyGo_head_label target s.start_page lastP.page_num s.chapter_label
        _ [] 0 c0 l' (by rw [hsome]; exact hl) hne
    · intro c0 l' hl c hc
      exact greedyGo_tail_labels target s.start_page lastP.page_num s.chapter_label
        _ [] 0 c0 l' (by rw [hsome]; exact hl) c hc
    · intro c0 hl
      exact greedyGo_single_label target s.start_page lastP.page_num s.chapter_label
        _ [] 0 c0 (by rw [hsome]; exact hl)

/-- Witness for C4 (amended) on a section split into two sub-chunks:
the first carries `"Chapter 1"`, the second the empty label. -/
theorem split_section_label_policy_witness :
    split_section ⟨[⟨1, "a b\n\nc d", false, 0⟩], "Chapter 1", 1⟩ 2 =
      some [⟨"a b", 1, 1, "Chapter 1"⟩, ⟨"c d", 1, 1, ""⟩] ∧
    ¬ 10 * wordCount (String.intercalate "\n\n"
        (([⟨1, "a b\n\nc d", false, 0⟩] : List Page).map (·.text))) ≤ 13 * 2 ∧
    ((∀ c0 l', ([⟨"a b", 1, 1, "Chapter 1"⟩, ⟨"c d", 1, 1, ""⟩] : List SubChunk) = c0 :: l' →
        l' ≠ [] → c0.chapter_label = "Chapter 1") ∧
     (∀ c0 l', ([⟨"a b", 1, 1, "Chapter 1"⟩, ⟨"c d", 1, 1, ""⟩] : List SubChunk) = c0 :: l' →
        ∀ c ∈ l', c.chapter_label = "") ∧
     (∀ c0, ([⟨"a b", 1, 1, "Chapter 1"⟩, ⟨"c d", 1, 1, ""⟩] : List SubChunk) = [c0] →
        c0.chapter_label = "")) :=
  ⟨by decide, by decide,
   split_section_label_policy ⟨[⟨1, "a b\n\nc d", false, 0⟩], "Chapter 1", 1⟩ 2
     [⟨"a b", 1, 1, "Chapter 1"⟩, ⟨"c d", 1, 1, ""⟩] (by decide) (by decide)⟩

/-! ## Claim C7: the 6500-word boundary section -/

/-- Splitting the `" w w … w"` text: with a pending word in the
accumulator, the word splitter yields one word per `" w"` group plus the
pending one. -/
lemma wordsAux_mkWordsChars_len :
    ∀ n : Nat, (wordsAux (mkWordsChars n) ['w']).length = n + 1 := by
  intro n
  induction n with
  | zero => simp [mkWordsChars, wordsAux]
  | succ m ih => simp [mkWordsChars, wordsAux, isWS] at ih ⊢; exact ih

/-- The constructed text has exactly `n` whitespace-separated words. -/
lemma wordCount_mkWordsChars (n : Nat) : wordCount ⟨mkWordsChars n⟩ = n := by
  cases n with
  | zero => simp [wordCount, pyWords, mkWordsChars, wordsAux]
  | succ m =>
    show (wordsAux (mkWordsChars (m + 1)) []).length = m + 1
    simp only [mkWordsChars, wordsAux, isWS]
    simpa [wordsAux, isWS] using wordsAux_mkWordsChars_len m

/-- The constructed text contains no newline. -/
lemma mkWordsChars_no_nl : ∀ n : Nat, '\n' ∉ mkWordsChars n := by
  intro n
  induction n with
  | zero => simp [mkWordsChars]
  | succ m ih => simp [mkWordsChars, ih]

/-- A text without newlines is a single paragraph for the paragraph
splitter, for any fuel. -/
lemma paraSplitGo_no_nl :
    ∀ (fuel : Nat) (l acc : List Char), '\n' ∉ l →
      paraSplitGo fuel l acc = [⟨acc.reverse ++ l⟩] := by
  intro fuel
  induction fuel with
  | zero => intro l acc _; rfl
  | succ f ih =>
    intro l acc h
    cases l with
    | nil => simp [paraSplitGo]
    | cons c cs =>
      have hc : ¬ c = '\n' := fun hh => h (hh ▸ List.mem_cons_self c cs)
      have hcs : '\n' ∉ cs := fun hh => h (List.mem_cons_of_mem c hh)
      simp only [paraSplitGo, if_neg hc]
      rw [ih cs (c :: acc) hcs]
      simp

/-- `re.split(r'\n\s*\n', s)` on a newline-free `s` returns `[s]`. -/
lemma pyParagraphs_no_nl (s : String) (h : '\n' ∉ s.data) :
    pyParagraphs s = [s] := by
  unfold pyParagraphs
  rw [paraSplitGo_no_nl _ _ _ h]
  simp

/-- C7: with `target_words = 5000`, a section of exactly 6500 words with
no blank-line paragraph boundary yields exactly one chunk: the float
test `6500 <= 5000 * 1.3` holds (the whole-section path is taken right
at the 30% boundary), so the section is emitted as a single sub-chunk
covering its full page range. -/
theorem section_6500_words_one_chunk (s : TextSection) (lastP : Page)
    (hlast : s.pages.getLast? = some lastP)
    (hwc : wordCount (String.intercalate "\n\n" (s.pages.map (·.text))) = 6500)
    (hpar : pyParagraphs (String.intercalate "\n\n" (s.pages.map (·.text))) =
            [String.intercalate "\n\n" (s.pages.map (·.text))]) :
    split_section s 5000 =
      some [⟨String.intercalate "\n\n" (s.pages.map (·.text)),
            s.start_page, lastP.page_num, s.chapter_label⟩] := by
  unfold split_section
  rw [hlast]
  simp [hwc]

/-- Witness for C7: one page holding a 6500-word single paragraph. -/
theorem section_6500_words_one_chunk_witness :
    (([⟨1, bigText6500, false, 0⟩] : List Page).getLast? =
      some ⟨1, bigText6500, false, 0⟩) ∧
    wordCount (String.intercalate "\n\n"
      (([⟨1, bigText6500, false, 0⟩] : List Page).map (·.text))) = 6500 ∧
    pyParagraphs (String.intercalate "\n\n"
      (([⟨1, bigText6500, false, 0⟩] : List Page).map (·.text))) =
      [String.intercalate "\n\n"
        (([⟨1, bigText6500, false, 0⟩] : List Page).map (·.text))] ∧
    split_section ⟨[⟨1, bigText6500, false, 0⟩], "", 1⟩ 5000 =
      some [⟨String.intercalate "\n\n"
        (([⟨1, bigText6500, false, 0⟩] : List Page).map (·.text)), 1, 1, ""⟩] := by
  have hinter : String.intercalate "\n\n"
      (([⟨1, bigText6500, false, 0⟩] : List Page).map (·.text)) = bigText6500 := rfl
  have hwc : wordCount (String.intercalate "\n\n"
      (([⟨1, bigText6500, false, 0⟩] : List Page).map (·.text))) = 6500 := by
    rw [hinter]; exact wordCount_mkWordsChars 6500
  have hpar : pyParagraphs (String.intercalate "\n\n"
      (([⟨1, bigText6500, false, 0⟩] : List Page).map (·.text))) =
      [String.intercalate "\n\n"
        (([⟨1, bigText6500, false, 0⟩] : List Page).map (·.text))] := by
    rw [hinter]; exact pyParagraphs_no_nl bigText6500 (mkWordsChars_no_nl 6500)
  exact ⟨rfl, hwc, hpar,
    section_6500_words_one_chunk ⟨[⟨1, bigText6500, false, 0⟩], "", 1⟩
      ⟨1, bigText6500, false, 0⟩ rfl hwc hpar⟩

/-! ## Claim C1: dense chunk indices and addressable results -/

/-- Chunk indices are assigned as positions in emission order. -/
lemma chunk_text_indices (pages : List Page) (target : Nat) (chunks : List Chunk)
    (h : chunk_text pages target = some chunks) :
    ∀ i (hi : i < chunks.length), chunks[i].index = i := by
  intro i hi
  simp only [chunk_text] at h
  cases hm : splitAllSections target
      (split_at_chapters pages (detect_chapter_breaks pages)) with
  | none => rw [hm] at h; simp at h
  | some nested =>
    rw [hm] at h
    simp only [Option.some.injEq] at h
    subst h
    have hlen : i < nested.flatten.enum.length := by
      simpa [List.enum_length] using (by simpa using hi)
    rw [List.getElem_map]
    rw [List.getElem_enum]

/-- Counting elements whose `index` field equals `i` in a list whose
`j`-th element has index `k + j`: exactly one hit when `i` falls in the
covered range. -/
lemma countP_index_shift (l : List Chunk) (k i : Nat)
    (hd : ∀ j (hj : j < l.length), l[j].index = k + j) :
    l.countP (fun c => c.index == i) = if k ≤ i ∧ i < k + l.length then 1 else 0 := by
  induction l generalizing k with
  | nil =>
    simp only [List.countP_nil, List.length_nil, Nat.add_zero]
    rw [if_neg (by omega)]
  | cons c t ih =>
    have hc : c.index = k := by simpa using hd 0 (by simp)
    have ht : ∀ j (hj : j < t.length), t[j].index = (k + 1) + j := by
      intro j hj
      have := hd (j + 1) (by simpa using Nat.succ_lt_succ hj)
      simpa [Nat.add_assoc, Nat.add_comm 1 j] using this
    rw [List.countP_cons, ih (k + 1) ht]
    by_cases hik : k = i
    · subst hik
      simp [hc]
    · have hne : (c.index == i) = false := by simp [hc]; omega
      rw [hne]
      simp only [Bool.false_eq_true, if_false, Nat.add_zero, List.length_cons]
      by_cases h1 : k + 1 ≤ i ∧ i < k + 1 + t.length
      · rw [if_pos h1, if_pos (by omega)]
      · rw [if_neg h1, if_neg (by omega)]

/-- A list with exactly one element satisfying `p` decomposes around
that element, with no other hits on either side. -/
lemma countP_one_decomp {α : Type} (p : α → Bool) (l : List α)
    (h : l.countP p = 1) :
    ∃ l1 a l2, l = l1 ++ a :: l2 ∧ p a = true ∧
      (∀ x ∈ l1, ¬ p x = true) ∧ (∀ x ∈ l2, ¬ p x = true) := by
  induction l with
  | nil => simp at h
  | cons a t ih =>
    rw [List.countP_cons] at h
    by_cases hpa : p a = true
    · refine ⟨[], a, t, by simp, hpa, by simp, ?_⟩
      rw [if_pos hpa] at h
      exact List.countP_eq_zero.mp (by omega)
    · rw [if_neg hpa] at h
      simp only [Nat.add_zero] at h
      obtain ⟨l1, b, l2, hdec, hpb, h1, h2⟩ := ih h
      exact ⟨a :: l1, b, l2, by simp [hdec], hpb, by simpa [hpa] using h1, h2⟩

/-- The slot-writing fold keeps the results array length. -/
lemma foldl_set_length (g : Chunk → Option TranslationResult)
    (l : List Chunk) (init : List (Option TranslationResult)) :
    (l.foldl (fun r c => r.set c.index (g c)) init).length = init.length := by
  induction l generalizing init with
  | nil => rfl
  | cons c t ih => simp [List.foldl_cons, ih, List.length_set]

/-- Slots no task writes to keep their initial value. -/
lemma foldl_set_untouched (g : Chunk → Option TranslationResult)
    (l : List Chunk) (init : List (Option TranslationResult)) (i : Nat)
    (h : ∀ c ∈ l, c.index ≠ i) :
    (l.foldl (fun r c => r.set c.index (g c)) init)[i]? = init[i]? := by
  induction l generalizing init with
  | nil => rfl
  | cons c t ih =>
    rw [List.foldl_cons, ih _ (fun d hd => h d (List.mem_cons_of_mem c hd))]
    exact List.getElem?_set_ne (h c (List.mem_cons_self c t))

/-- The unique task writing slot `i` determines the final value there. -/
lemma foldl_set_unique_write (g : Chunk → Option TranslationResult)
    (l1 : List Chunk) (c : Chunk) (l2 : List Chunk)
    (init : List (Option TranslationResult)) (i : Nat)
    (hc : c.index = i) (h2 : ∀ d ∈ l2, d.index ≠ i) (hi : i < init.length) :
    ((l1 ++ c :: l2).foldl (fun r d => r.set d.index (g d)) init)[i]? = some (g c) := by
  rw [List.foldl_append, List.foldl_cons]
  rw [foldl_set_untouched g l2 _ i h2]
  rw [hc]
  exact List.getElem?_set_eq (by rw [foldl_set_length]; exact hi)

/-- C1: for every page sequence accepted by `chunk_text`, chunk `index`
values form the dense sequence `0..N-1` in emission order, and for every
completion order of the translation tasks the results array holds at
position `i` the TranslationResult of the chunk with index `i` (tagged
`chunk_index = i`), so input order is recoverable from the result list
regardless of completion order. -/
theorem chunk_order_addressable (pages : List Page) (target : Nat)
    (chunks : List Chunk) (hchunks : chunk_text pages target = some chunks)
    (oracle : Chunk → Nat → CallOutcome) (max_retries : Nat)
    (order : List Chunk) (horder : order.Perm chunks) :
    (∀ i (hi : i < chunks.length), chunks[i].index = i) ∧
    (∀ i (hi : i < chunks.length),
      (translate_chunks oracle max_retries chunks order)[i]? =
        some (some (translate_single (oracle chunks[i]) chunks[i] max_retries).1) ∧
      (translate_single (oracle chunks[i]) chunks[i] max_retries).1.chunk_index = i) := by
  have density := chunk_text_indices pages target chunks hchunks
  refine ⟨density, ?_⟩
  intro i hi
  have hcnt : chunks.countP (fun c => c.index == i) = 1 := by
    rw [countP_index_shift chunks 0 i (fun j hj => by simpa using density j hj)]
    simp [hi]
  have hcnt_order : order.countP (fun c => c.index == i) = 1 :=
    (horder.countP_eq _).trans hcnt
  obtain ⟨l1, c, l2, hdec, hpc, _h1, h2⟩ := countP_one_decomp _ order hcnt_order
  have hci : c.index = i := by simpa using hpc
  have hceq : chunks[i] = c := by
    have hmem : c ∈ chunks := horder.subset (hdec ▸ (by simp))
    obtain ⟨j, hj, hcj⟩ := List.mem_iff_getElem.mp hmem
    have hji : j = i := by rw [← hci, ← hcj]; exact (density j hj).symm
    subst hji
    exact hcj
  constructor
  · unfold translate_chunks
    rw [hdec]
    rw [foldl_set_unique_write _ l1 c l2 _ i hci
      (fun d hd hh => h2 d hd (by simp [hh]))
      (by simpa [List.length_replicate] using hi)]
    rw [hceq]
  · rw [hceq, ← hci]
    exact (tsGo_chunk_index (oracle c) c max_retries 0).1

/-- Witness for C1: a two-chunk split translated in reversed completion
order still yields a results array addressable by chunk index. -/
theorem chunk_order_addressable_witness :
    chunk_text [⟨1, "a b", false, 0⟩, ⟨2, "c d", false, 0⟩] 2 =
      some [⟨0, "a b", 1, 2, "", 2⟩, ⟨1, "c d", 1, 2, "", 2⟩] ∧
    ([⟨1, "c d", 1, 2, "", 2⟩, ⟨0, "a b", 1, 2, "", 2⟩] : List Chunk).Perm
      [⟨0, "a b", 1, 2, "", 2⟩, ⟨1, "c d", 1, 2, "", 2⟩] ∧
    ((∀ i (hi : i < ([⟨0, "a b", 1, 2, "", 2⟩, ⟨1, "c d", 1, 2, "", 2⟩] : List Chunk).length),
        ([⟨0, "a b", 1, 2, "", 2⟩, ⟨1, "c d", 1, 2, "", 2⟩] : List Chunk)[i].index = i) ∧
     (∀ i (hi : i < ([⟨0, "a b", 1, 2, "", 2⟩, ⟨1, "c d", 1, 2, "", 2⟩] : List Chunk).length),
        (translate_chunks (fun _ _ => CallOutcome.success "T") 2
          [⟨0, "a b", 1, 2, "", 2⟩, ⟨1, "c d", 1, 2, "", 2⟩]
          [⟨1, "c d", 1, 2, "", 2⟩, ⟨0, "a b", 1, 2, "", 2⟩])[i]? =
          some (some (translate_single ((fun _ _ => CallOutcome.success "T")
            ([⟨0, "a b", 1, 2, "", 2⟩, ⟨1, "c d", 1, 2, "", 2⟩] : List Chunk)[i])
            ([⟨0, "a b", 1, 2, "", 2⟩, ⟨1, "c d", 1, 2, "", 2⟩] : List Chunk)[i] 2).1) ∧
        (translate_single ((fun _ _ => CallOutcome.success "T")
            ([⟨0, "a b", 1, 2, "", 2⟩, ⟨1, "c d", 1, 2, "", 2⟩] : List Chunk)[i])
            ([⟨0, "a b", 1, 2, "", 2⟩, ⟨1, "c d", 1, 2, "", 2⟩] : List Chunk)[i] 2).1.chunk_index = i)) :=
  ⟨by decide, by decide,
   chunk_order_addressable [⟨1, "a b", false, 0⟩, ⟨2, "c d", false, 0⟩] 2
     [⟨0, "a b", 1, 2, "", 2⟩, ⟨1, "c d", 1, 2, "", 2⟩] (by decide)
     (fun _ _ => CallOutcome.success "T") 2
     [⟨1, "c d", 1, 2, "", 2⟩, ⟨0, "a b", 1, 2, "", 2⟩] (by decide)⟩

/-! ## Claims C6 and C3: page coverage and image association -/

/-- The sections produced by the sectioning loop concatenate exactly to
the input pages: every page lands in exactly one section's page list. -/
lemma sacGo_flatten (bps : List Nat) (bl : Nat → String) :
    ∀ (ps current : List Page) (label : String),
      ((sacGo bps bl ps current label).map (·.pages)).flatten = current ++ ps := by
  intro ps
  induction ps with
  | nil =>
    intro current label
    cases current with
    | nil => simp [sacGo]
    | cons p l => simp [sacGo]
  | cons page rest ih =>
    intro current label
    cases current with
    | nil =>
      rw [sacGo]
      by_cases hb : bps.contains page.page_num = true
      · rw [if_pos hb]; simpa using ih [page] (bl page.page_num)
      · rw [if_neg hb]; simpa using ih [page] label
    | cons p cur =>
      rw [sacGo]
      by_cases hb : bps.contains page.page_num = true
      · rw [if_pos hb]
        simp only [List.map_cons, List.flatten_cons, ih [page] (bl page.page_num)]
        simp
      · rw [if_neg hb]
        rw [ih ((p :: cur) ++ [page]) label]
        simp

/-- Every section the sectioning loop emits has a nonempty page list and
records its first page's number as `start_page`. -/
lemma sacGo_shape (bps : List Nat) (bl : Nat → String) :
    ∀ (ps current : List Page) (label : String),
      ∀ s ∈ sacGo bps bl ps current label,
        ∃ q l', s.pages = q :: l' ∧ s.start_page = q.page_num := by
  intro ps
  induction ps with
  | nil =>
    intro current label s hs
    cases current with
    | nil => simp [sacGo] at hs
    | cons p l =>
      simp [sacGo] at hs
      exact ⟨p, l, by simp [hs]⟩
  | cons page rest ih =>
    intro current label s hs
    cases current with
    | nil =>
      rw [sacGo] at hs
      by_cases hb : bps.contains page.page_num = true
      · rw [if_pos hb] at hs; exact ih [page] (bl page.page_num) s hs
      · rw [if_neg hb] at hs; exact ih [page] label s hs
    | cons p cur =>
      rw [sacGo] at hs
      by_cases hb : bps.contains page.page_num = true
      · rw [if_pos hb] at hs
        rcases List.mem_cons.mp hs with h1 | h2
        · exact ⟨p, cur, by simp [h1]⟩
        · exact ih [page] (bl page.page_num) s h2
      · rw [if_neg hb] at hs
        exact ih ((p :: cur) ++ [page]) label s hs

/-- `_split_at_chapters` partitions the input pages over its sections. -/
lemma split_at_chapters_flatten (pages : List Page) (breaks : List ChapterBreak) :
    (((split_at_chapters pages breaks).map (·.pages)).flatten) = pages := by
  unfold split_at_chapters
  by_cases hb : breaks = []
  · rw [if_pos hb]; simp
  · rw [if_neg hb]
    simpa using sacGo_flatten (breaks.map (·.page_num)) (breakLabelFor breaks) pages [] ""

/-- For nonempty input every section is nonempty and starts at its first
page's number. -/
lemma split_at_chapters_shape (pages : List Page) (breaks : List ChapterBreak)
    (hne : pages ≠ []) :
    ∀ s ∈ split_at_chapters pages breaks,
      ∃ q l', s.pages = q :: l' ∧ s.start_page = q.page_num := by
  intro s hs
  unfold split_at_chapters at hs
  by_cases hb : breaks = []
  · rw [if_pos hb] at hs
    simp at hs
    cases hp : pages with
    | nil => exact absurd hp hne
    | cons q l' => exact ⟨q, l', by simp [hs, hp]⟩
  · rw [if_neg hb] at hs
    exact sacGo_shape (breaks.map (·.page_num)) (breakLabelFor breaks) pages [] "" s hs

/-- Every sub-chunk the greedy loop emits covers the full section range
it was called with. -/
lemma greedyGo_range (target sp ep : Nat) (lb : String) :
    ∀ (paras current : List String) (cw : Nat) (first : Bool),
      ∀ c ∈ greedyGo target sp ep lb paras current cw first,
        c.start_page = sp ∧ c.end_page = ep := by
  intro paras
  induction paras with
  | nil =>
    intro current cw first c hc
    cases current with
    | nil => simp [greedyGo] at hc
    | cons a l =>
      simp [greedyGo] at hc
      simp [hc]
  | cons p rest ih =>
    intro current cw first c hc
    rw [greedyGo] at hc
    by_cases h : cw + wordCount p > target ∧ current ≠ []
    · rw [if_pos h] at hc
      rcases List.mem_cons.mp hc with h1 | h2
      · simp [h1]
      · exact ih [p] (wordCount p) false c h2
    · rw [if_neg h] at hc
      exact ih (current ++ [p]) (cw + wordCount p) first c hc

/-- The paragraph splitter always returns at least one piece. -/
lemma paraSplitGo_ne_nil : ∀ (fuel : Nat) (l acc : List Char),
    paraSplitGo fuel l acc ≠ [] := by
  intro fuel
  induction fuel with
  | zero => intro l acc; simp [paraSplitGo]
  | succ f ih =>
    intro l acc
    cases l with
    | nil => simp [paraSplitGo]
    | cons c cs =>
      rw [paraSplitGo]
      by_cases hc : c = '\n'
      · rw [if_pos hc]
        by_cases hw : (cs.takeWhile isWS).contains '\n' = true
        · rw [if_pos hw]; simp
        · rw [if_neg hw]; exact ih cs ('\n' :: acc)
      · rw [if_neg hc]; exact ih cs (c :: acc)

/-- `_split_section` on a nonempty section succeeds and emits at least
one sub-chunk, all covering the section's full page range. -/
lemma split_section_shape (s : TextSection) (target : Nat) (lastP : Page)
    (hl : s.pages.getLast? = some lastP) :
    ∃ subs, split_section s target = some subs ∧ subs ≠ [] ∧
      ∀ sc ∈ subs, sc.start_page = s.start_page ∧ sc.end_page = lastP.page_num := by
  have hrw : split_section s target =
      (if 10 * wordCount (String.intercalate "\n\n" (s.pages.map (·.text)))
          ≤ 13 * target then
        some [⟨String.intercalate "\n\n" (s.pages.map (·.text)),
              s.start_page, lastP.page_num, s.chapter_label⟩]
      else
        some (greedyGo target s.start_page lastP.page_num s.chapter_label
          (pyParagraphs (String.intercalate "\n\n" (s.pages.map (·.text))))
          [] 0 true)) := by
    unfold split_section
    rw [hl]
  rw [hrw]
  by_cases hw : 10 * wordCount (String.intercalate "\n\n" (s.pages.map (·.text)))
      ≤ 13 * target
  · rw [if_pos hw]
    exact ⟨_, rfl, by simp, by simp⟩
  · rw [if_neg hw]
    refine ⟨_, rfl, ?_, ?_⟩
    · exact greedyGo_ne_nil target s.start_page lastP.page_num s.chapter_label
        _ [] 0 true (Or.inr (paraSplitGo_ne_nil _ _ _))
    · intro sc hsc
      exact greedyGo_range target s.start_page lastP.page_num s.chapter_label
        _ [] 0 true sc hsc

/-- `getLast?` yields a member of the list. -/
lemma mem_of_getLast?Some {α : Type} : ∀ {l : List α} {a : α},
    l.getLast? = some a → a ∈ l := by
  intro l
  induction l with
  | nil => intro a h; simp at h
  | cons q t ih =>
    intro a h
    cases t with
    | nil => simp at h; simp [h]
    | cons q2 t2 =>
      rw [List.getLast?_cons_cons] at h
      exact List.mem_cons_of_mem q (ih h)

/-- In a page list sorted by strictly increasing page number, every page
number is at most the last one's. -/
lemma pairwise_le_getLast : ∀ (l : List Page),
    l.Pairwise (fun a b => a.page_num < b.page_num) →
    ∀ (lastP : Page), l.getLast? = some lastP →
    ∀ x ∈ l, x.page_num ≤ lastP.page_num := by
  intro l
  induction l with
  | nil => intro _ lastP h; simp at h
  | cons q t ih =>
    intro hp lastP hl x hx
    cases t with
    | nil =>
      simp at hl
      rcases List.mem_singleton.mp hx with h
      simp [h, ← hl]
    | cons q2 t2 =>
      rw [List.getLast?_cons_cons] at hl
      rcases List.mem_cons.mp hx with h1 | h2
      · have hmem : lastP ∈ q2 :: t2 := mem_of_getLast?Some hl
        have := (List.pairwise_cons.mp hp).1 lastP hmem
        rw [h1]
        exact Nat.le_of_lt this
      · exact ih (List.pairwise_cons.mp hp).2 lastP hl x h2

/-- Successful splitting of every section lifts through the
section-splitting loop. -/
lemma splitAllSections_some (sections : List TextSection) (target : Nat)
    (h : ∀ s ∈ sections, ∃ l, split_section s target = some l) :
    ∃ nested, splitAllSections target sections = some nested ∧
      nested.length = sections.length ∧
      ∀ k (hk : k < sections.length) (hk2 : k < nested.length),
        split_section sections[k] target = some nested[k] := by
  induction sections with
  | nil => exact ⟨[], rfl, rfl, by simp⟩
  | cons s rest ih =>
    obtain ⟨ls, hls⟩ := h s (List.mem_cons_self s rest)
    obtain ⟨nr, hnr, hlen, hcorr⟩ := ih (fun d hd => h d (List.mem_cons_of_mem s hd))
    refine ⟨ls :: nr, ?_, by simp [hlen], ?_⟩
    · rw [splitAllSections, hls, hnr]
    · intro k hk hk2
      cases k with
      | zero => simpa using hls
      | succ j =>
        have := hcorr j (by simpa using Nat.lt_of_succ_lt_succ hk)
          (by simpa using Nat.lt_of_succ_lt_succ hk2)
        simpa using this

/-- Shared coverage result: on a nonempty, strictly increasing page
sequence `chunk_text` succeeds and every input page number lies in at
least one emitted chunk's page range. -/
lemma chunk_text_coverage (pages : List Page) (target : Nat)
    (hne : pages ≠ [])
    (hmono : pages.Pairwise (fun a b => a.page_num < b.page_num)) :
    ∃ chunks, chunk_text pages target = some chunks ∧
      ∀ p ∈ pages, ∃ c ∈ chunks,
        c.start_page ≤ p.page_num ∧ p.page_num ≤ c.end_page := by
  have hflat := split_at_chapters_flatten pages (detect_chapter_breaks pages)
  have hshape := split_at_chapters_shape pages (detect_chapter_breaks pages) hne
  have hsplit : ∀ s ∈ split_at_chapters pages (detect_chapter_breaks pages),
      ∃ l, split_section s target = some l := by
    intro s hs
    obtain ⟨q, l', hq, _⟩ := hshape s hs
    cases hgl : s.pages.getLast? with
    | none => rw [List.getLast?_eq_none_iff] at hgl; rw [hq] at hgl; simp at hgl
    | some lastP =>
      obtain ⟨subs, hsubs, _, _⟩ := split_section_shape s target lastP hgl
      exact ⟨subs, hsubs⟩
  obtain ⟨nested, hmapM, hlen, hcorr⟩ :=
    splitAllSections_some (split_at_chapters pages (detect_chapter_breaks pages))
      target hsplit
  refine ⟨nested.flatten.enum.map (fun pr =>
      ({ index := pr.1, text := pr.2.text, start_page := pr.2.start_page,
         end_page := pr.2.end_page, chapter_label := pr.2.chapter_label,
         word_count := wordCount pr.2.text } : Chunk)), ?_, ?_⟩
  · simp only [chunk_text, hmapM]
  intro p hp
  have hpin : p ∈ ((split_at_chapters pages (detect_chapter_breaks pages)).map
      (·.pages)).flatten := by rw [hflat]; exact hp
  obtain ⟨lp, hlp, hplp⟩ := List.mem_flatten.mp hpin
  obtain ⟨s, hs, hsp⟩ := List.mem_map.mp hlp
  obtain ⟨k, hk, hsk⟩ := List.mem_iff_getElem.mp hs
  obtain ⟨q, l', hq, hstart⟩ := hshape s hs
  have hp1 : p ∈ s.pages := by rw [hsp]; exact hplp
  have hpair : s.pages.Pairwise (fun a b => a.page_num < b.page_num) := by
    rw [← hflat] at hmono
    rw [hsp]
    exact (List.pairwise_flatten.mp hmono).1 lp hlp
  cases hgl : s.pages.getLast? with
  | none =>
    rw [List.getLast?_eq_none_iff] at hgl
    rw [hq] at hgl
    simp at hgl
  | some lastP =>
    obtain ⟨subs, hsubs, hsne, hrange⟩ := split_section_shape s target lastP hgl
    have hk2 : k < nested.length := by rw [hlen]; exact hk
    have hsubs_eq : subs = nested[k] := by
      have hck := hcorr k hk hk2
      rw [hsk] at hck
      exact Option.some_inj.mp (hsubs.symm.trans hck)
    obtain ⟨sc0, hsc0⟩ := List.exists_mem_of_ne_nil subs hsne
    have hsc0fl : sc0 ∈ nested.flatten :=
      List.mem_flatten.mpr ⟨nested[k], List.getElem_mem hk2, hsubs_eq ▸ hsc0⟩
    obtain ⟨j, hj, hjeq⟩ := List.mem_iff_getElem.mp hsc0fl
    have hq1 : q.page_num ≤ p.page_num := by
      rw [hq] at hp1 hpair
      rcases List.mem_cons.mp hp1 with h1 | h2
      · simp [h1]
      · exact Nat.le_of_lt ((List.pairwise_cons.mp hpair).1 p h2)
    have hq2 : p.page_num ≤ lastP.page_num :=
      pairwise_le_getLast s.pages hpair lastP hgl p hp1
    have hj2 : j < (nested.flatten.enum.map (fun pr =>
        ({ index := pr.1, text := pr.2.text, start_page := pr.2.start_page,
           end_page := pr.2.end_page, chapter_label := pr.2.chapter_label,
           word_count := wordCount pr.2.text } : Chunk))).length := by
      simpa [List.enum_length] using hj
    refine ⟨_, List.getElem_mem hj2, ?_, ?_⟩
    · rw [List.getElem_map, List.getElem_enum]
      simp only []
      rw [hjeq]
      rw [(hrange sc0 hsc0).1, hstart]
      exact hq1
    · rw [List.getElem_map, List.getElem_enum]
      simp only []
      rw [hjeq]
      rw [(hrange sc0 hsc0).2]
      exact hq2

/-- C6: for every non-empty page sequence (page numbers strictly
increasing, the extractor's invariant), `chunk_text` succeeds and every
input page number lies within at least one emitted chunk's
`[start_page, end_page]` range — no page is dropped, although ranges of
distinct chunks may coincide since every sub-chunk of a section carries
the whole section's range. -/
theorem chunker_page_coverage (pages : List Page) (target : Nat)
    (hne : pages ≠ [])
    (hmono : pages.Pairwise (fun a b => a.page_num < b.page_num)) :
    ∃ chunks, chunk_text pages target = some chunks ∧
      ∀ p ∈ pages, ∃ c ∈ chunks,
        c.start_page ≤ p.page_num ∧ p.page_num ≤ c.end_page :=
  chunk_text_coverage pages target hne hmono

/-- Witness for C6 on a concrete two-page document. -/
theorem chunker_page_coverage_witness :
    ([⟨1, "hello", false, 0⟩, ⟨2, "world", false, 0⟩] : List Page) ≠ [] ∧
    ([⟨1, "hello", false, 0⟩, ⟨2, "world", false, 0⟩] : List Page).Pairwise
      (fun a b => a.page_num < b.page_num) ∧
    (∃ chunks, chunk_text [⟨1, "hello", false, 0⟩, ⟨2, "world", false, 0⟩] 5000 =
        some chunks ∧
      ∀ p ∈ ([⟨1, "hello", false, 0⟩, ⟨2, "world", false, 0⟩] : List Page),
        ∃ c ∈ chunks, c.start_page ≤ p.page_num ∧ p.page_num ≤ c.end_page) :=
  ⟨by decide, by decide,
   chunker_page_coverage [⟨1, "hello", false, 0⟩, ⟨2, "world", false, 0⟩] 5000
     (by decide) (by decide)⟩

/-- C3 as stated is false: when a section is split, all its sub-chunks
share the whole section's page range, so an image inside that range is
attached (by the containment rule of src/app.py) to every one of those
sub-chunks, not to exactly one.  Concretely, two two-word pages with
`target_words = 2` split into two chunks both ranging `[1, 2]`, and the
page-1 image is attached to both distinct chunks. -/
theorem image_single_chunk_counterexample :
    chunk_text [⟨1, "a b", false, 0⟩, ⟨2, "c d", false, 0⟩] 2 =
      some [⟨0, "a b", 1, 2, "", 2⟩, ⟨1, "c d", 1, 2, "", 2⟩] ∧
    (⟨1, [], 0, 0, ""⟩ : ImageInfo) ∈
      chunkImagesApp [⟨1, [], 0, 0, ""⟩] ⟨0, "a b", 1, 2, "", 2⟩ ∧
    (⟨1, [], 0, 0, ""⟩ : ImageInfo) ∈
      chunkImagesApp [⟨1, [], 0, 0, ""⟩] ⟨1, "c d", 1, 2, "", 2⟩ ∧
    (⟨0, "a b", 1, 2, "", 2⟩ : Chunk) ≠ ⟨1, "c d", 1, 2, "", 2⟩ := by decide

/-- C3 amended: an image whose source page is an input page is attached
to at least one chunk, and it is attached to exactly the chunks whose
`[start_page, end_page]` range contains its page — possibly several,
because all sub-chunks of a split section share the section's range. -/
theorem image_attachment_amended (pages : List Page) (target : Nat)
    (images : List ImageInfo) (img : ImageInfo)
    (hne : pages ≠ [])
    (hmono : pages.Pairwise (fun a b => a.page_num < b.page_num))
    (himg : img ∈ images)
    (hpage : ∃ p ∈ pages, img.page_num = p.page_num) :
    ∃ chunks, chunk_text pages target = some chunks ∧
      (∃ c ∈ chunks, img ∈ chunkImagesApp images c) ∧
      (∀ c ∈ chunks, (img ∈ chunkImagesApp images c ↔
        (c.start_page ≤ img.page_num ∧ img.page_num ≤ c.end_page))) := by
  obtain ⟨chunks, hct, hcov⟩ := chunk_text_coverage pages target hne hmono
  obtain ⟨p, hp, hpn⟩ := hpage
  obtain ⟨c, hc, h1, h2⟩ := hcov p hp
  refine ⟨chunks, hct, ⟨c, hc, ?_⟩, ?_⟩
  · simp [chunkImagesApp, List.mem_filter, himg, hpn]
    exact ⟨h1, h2⟩
  · intro c' _
    simp [chunkImagesApp, List.mem_filter, himg]

/-- Witness for C3 (amended): a page-2 image on a two-page document. -/
theorem image_attachment_amended_witness :
    ([⟨1, "hello", false, 0⟩, ⟨2, "world", false, 0⟩] : List Page) ≠ [] ∧
    ([⟨1, "hello", false, 0⟩, ⟨2, "world", false, 0⟩] : List Page).Pairwise
      (fun a b => a.page_num < b.page_num) ∧
    (⟨2, [], 0, 0, ""⟩ : ImageInfo) ∈ ([⟨2, [], 0, 0, ""⟩] : List ImageInfo) ∧
    (∃ p ∈ ([⟨1, "hello", false, 0⟩, ⟨2, "world", false, 0⟩] : List Page),
      (⟨2, [], 0, 0, ""⟩ : ImageInfo).page_num = p.page_num) ∧
    (∃ chunks, chunk_text [⟨1, "hello", false, 0⟩, ⟨2, "world", false, 0⟩] 5000 =
        some chunks ∧
      (∃ c ∈ chunks, (⟨2, [], 0, 0, ""⟩ : ImageInfo) ∈
        chunkImagesApp [⟨2, [], 0, 0, ""⟩] c) ∧
      (∀ c ∈ chunks, ((⟨2, [], 0, 0, ""⟩ : ImageInfo) ∈
          chunkImagesApp [⟨2, [], 0, 0, ""⟩] c ↔
        (c.start_page ≤ (⟨2, [], 0, 0, ""⟩ : ImageInfo).page_num ∧
         (⟨2, [], 0, 0, ""⟩ : ImageInfo).page_num ≤ c.end_page)))) :=
  ⟨by decide, by decide, by decide, by decide,
   image_attachment_amended [⟨1, "hello", false, 0⟩, ⟨2, "world", false, 0⟩] 5000
     [⟨2, [], 0, 0, ""⟩] ⟨2, [], 0, 0, ""⟩ (by decide) (by decide) (by decide)
     (by decide)⟩

/-! ## Claim C9: bold-label paragraph reconstruction -/

/-- Strings with equal character data are equal. -/
lemma stringDataEq (s t : String) (h : s.data = t.data) : s = t := by
  cases s
  cases t
  exact congrArg String.mk h

/-- Dropping a prefix never lengthens a list. -/
lemma length_dropWhile_le' {α : Type} (p : α → Bool) (l : List α) :
    (l.dropWhile p).length ≤ l.length := by
  induction l with
  | nil => simp
  | cons x xs ih =>
    rw [List.dropWhile_cons]
    by_cases h : p x = true
    · rw [if_pos h]; exact Nat.le_succ_of_le ih
    · rw [if_neg h]

/-- A `dropWhile` that keeps the length keeps the list. -/
lemma dropWhile_eq_self_of_length {α : Type} (p : α → Bool) (l : List α)
    (h : (l.dropWhile p).length = l.length) : l.dropWhile p = l := by
  cases l with
  | nil => rfl
  | cons x xs =>
    rw [List.dropWhile_cons] at h ⊢
    by_cases hpx : p x = true
    · rw [if_pos hpx] at h
      have := length_dropWhile_le' p xs
      simp at h
      omega
    · rw [if_neg hpx]

/-- A `dropWhile` fixpoint starting with `y` refutes `p y`. -/
lemma dropWhile_self_head {α : Type} (p : α → Bool) (y : α) (ys : List α)
    (h : (y :: ys).dropWhile p = y :: ys) : p y = false := by
  by_cases hws : p y = true
  · rw [List.dropWhile_cons, if_pos hws] at h
    have h1 := length_dropWhile_le' p ys
    have h2 := congrArg List.length h
    simp at h2
    omega
  · exact Bool.eq_false_iff.mpr hws

/-- A string equal to its own Python `strip()` has no whitespace at
either end. -/
lemma pstrip_eq_self_ends (s : String) (h : pstrip s = s) :
    (∀ x, s.data.head? = some x → isWS x = false) ∧
    (∀ x, s.data.getLast? = some x → isWS x = false) := by
  have hdata : pstripL s.data = s.data := congrArg String.data h
  have hlen1 : (s.data.dropWhile isWS).length = s.data.length := by
    have h1 : (pstripL s.data).length ≤ (s.data.dropWhile isWS).length := by
      unfold pstripL
      rw [List.length_reverse]
      calc ((s.data.dropWhile isWS).reverse.dropWhile isWS).length
          ≤ (s.data.dropWhile isWS).reverse.length := length_dropWhile_le' _ _
        _ = (s.data.dropWhile isWS).length := List.length_reverse _
    have h2 := length_dropWhile_le' isWS s.data
    rw [hdata] at h1
    omega
  have heq1 : s.data.dropWhile isWS = s.data :=
    dropWhile_eq_self_of_length _ _ hlen1
  have hlen2 : ((s.data.dropWhile isWS).reverse.dropWhile isWS).length =
      (s.data.dropWhile isWS).reverse.length := by
    have hl := congrArg List.length hdata
    unfold pstripL at hl
    rw [List.length_reverse] at hl
    rw [List.length_reverse, hlen1]
    exact hl
  have heq2 : s.data.reverse.dropWhile isWS = s.data.reverse := by
    have := dropWhile_eq_self_of_length isWS (s.data.dropWhile isWS).reverse hlen2
    rwa [heq1] at this
  constructor
  · intro x hx
    cases hd : s.data with
    | nil => rw [hd] at hx; simp at hx
    | cons y ys =>
      rw [hd] at hx heq1
      have hxy : y = x := by simpa using hx
      rw [← hxy]
      exact dropWhile_self_head isWS y ys heq1
  · intro x hx
    have hx' : s.data.reverse.head? = some x := by
      rw [List.head?_reverse]
      exact hx
    cases hr : s.data.reverse with
    | nil => rw [hr] at hx'; simp at hx'
    | cons y ys =>
      rw [hr] at hx' heq2
      have hxy : y = x := by simpa using hx'
      rw [← hxy]
      exact dropWhile_self_head isWS y ys heq2

/-- A string with no whitespace at either end is a Python `strip()`
fixpoint. -/
lemma pstrip_eq_self_of_ends (s : String)
    (h1 : ∀ x, s.data.head? = some x → isWS x = false)
    (h2 : ∀ x, s.data.getLast? = some x → isWS x = false) :
    pstrip s = s := by
  have e1 : s.data.dropWhile isWS = s.data := by
    cases hd : s.data with
    | nil => rfl
    | cons y ys =>
      have := h1 y (by rw [hd]; rfl)
      rw [List.dropWhile_cons, if_neg (by simp [this])]
  have e2 : s.data.reverse.dropWhile isWS = s.data.reverse := by
    cases hr : s.data.reverse with
    | nil => rfl
    | cons y ys =>
      have hy : s.data.getLast? = some y := by
        rw [← List.head?_reverse, hr]
        rfl
      have := h2 y hy
      rw [List.dropWhile_cons, if_neg (by simp [this])]
  show (⟨pstripL s.data⟩ : String) = s
  unfold pstripL
  rw [e1, e2, List.reverse_reverse]

/-- `takeWhile` passes over a prefix it accepts wholesale. -/
lemma takeWhile_append_all {α : Type} (p : α → Bool) (l1 l2 : List α)
    (h : ∀ x ∈ l1, p x = true) :
    (l1 ++ l2).takeWhile p = l1 ++ l2.takeWhile p := by
  induction l1 with
  | nil => simp
  | cons x xs ih =>
    rw [List.cons_append, List.takeWhile_cons,
      if_pos (h x (List.mem_cons_self x xs)), List.cons_append,
      ih (fun d hd => h d (List.mem_cons_of_mem x hd))]

/-- `dropWhile` consumes a prefix it accepts wholesale. -/
lemma dropWhile_append_all {α : Type} (p : α → Bool) (l1 l2 : List α)
    (h : ∀ x ∈ l1, p x = true) :
    (l1 ++ l2).dropWhile p = l2.dropWhile p := by
  induction l1 with
  | nil => simp
  | cons x xs ih =>
    rw [List.cons_append, List.dropWhile_cons,
      if_pos (h x (List.mem_cons_self x xs)),
      ih (fun d hd => h d (List.mem_cons_of_mem x hd))]

/-- Python `text.split('\n')` peels one newline-free line at a time. -/
lemma splitNLAux_append_nl : ∀ (a b acc : List Char), '\n' ∉ a →
    splitNLAux (a ++ '\n' :: b) acc = ⟨acc.reverse ++ a⟩ :: splitNLAux b [] := by
  intro a
  induction a with
  | nil => intro b acc _; simp [splitNLAux]
  | cons x xs ih =>
    intro b acc h
    have hx : ¬ x = '\n' := fun hh => h (hh ▸ List.mem_cons_self x xs)
    rw [List.cons_append, splitNLAux, if_neg hx,
      ih b (x :: acc) (fun hh => h (List.mem_cons_of_mem x hh))]
    simp

/-- A trailing blank line is skipped and the render loop stops. -/
lemma renderGo_blank_nil (f : Nat) (st : BuilderState) :
    renderGo (f + 1 + 1) st [""] = st := by
  have h0 : pstrip "" = "" := rfl
  rw [renderGo]
  simp [h0, renderGo]

/-- C9 as stated is false: for the line `**Note:** hello`, the bold
group captures `Note:` including the colon, and the labelled-paragraph
branch renders `f'{label}: {rest}'`, so the paragraph reads
`Note:: hello world` with a doubled colon — not `Note: hello world` as
the claim requires. -/
theorem bold_label_counterexample :
    (render_translated_text {} "**Note:** hello\nworld\n").elements =
      [DocElement.paragraphEl "Note:: hello world"] ∧
    ("Note:: hello world" : String) ≠ "Note: hello world" := by decide

/-- C9 amended: for every translated text consisting of the line
`**Label:** value` (label nonempty, star-free, newline-free and
strip-clean; value nonempty, newline-free and strip-clean), one
non-empty strip-clean continuation line that does not start a structural
marker, and a final blank line, `render_translated_text` emits exactly
one paragraph element whose text is `Label:: value <continuation>`: the
bold markers are stripped, but the rendered text carries the doubled
colon, since the bold span content (ending in `:`) is joined to the rest
with the literal `": "`. -/
theorem bold_label_paragraph_amended (st : BuilderState) (L v c : String)
    (hLne : L ≠ "") (hL : pstrip L = L)
    (hLstar : ('*' : Char) ∉ L.data) (hLnl : ('\n' : Char) ∉ L.data)
    (hvne : v ≠ "") (hv : pstrip v = v) (hvnl : ('\n' : Char) ∉ v.data)
    (hcne : c ≠ "") (hc : pstrip c = c) (hcnl : ('\n' : Char) ∉ c.data)
    (hcb : boldParaBreak c = false) :
    render_translated_text st ("**" ++ L ++ ":** " ++ v ++ "\n" ++ c ++ "\n") =
      add_paragraph st (L ++ ":: " ++ v ++ " " ++ c) := by
  have hLd : ∃ x xs, L.data = x :: xs := by
    cases hld : L.data with
    | nil => exact absurd (stringDataEq L "" hld) hLne
    | cons x xs => exact ⟨x, xs, rfl⟩
  have hvd : ∃ x xs, v.data = x :: xs := by
    cases hld : v.data with
    | nil => exact absurd (stringDataEq v "" hld) hvne
    | cons x xs => exact ⟨x, xs, rfl⟩
  obtain ⟨L0, Ltl, hLd⟩ := hLd
  obtain ⟨v0, vtl, hvd⟩ := hvd
  have hLE := pstrip_eq_self_ends L hL
  have hvE := pstrip_eq_self_ends v hv
  have hv0 : isWS v0 = false := hvE.1 v0 (by rw [hvd]; rfl)
  -- the first line in explicit character form
  have hAdata : ("**" ++ L ++ ":** " ++ v).data =
      '*' :: '*' :: (L.data ++ (':' :: '*' :: '*' :: ' ' :: v.data)) := by
    have d1 : ("**" : String).data = ['*', '*'] := rfl
    have d2 : (":** " : String).data = [':', '*', '*', ' '] := rfl
    simp only [String.data_append, d1, d2, List.append_assoc, List.cons_append,
      List.nil_append]
  have hAeq : ("**" ++ L ++ ":** " ++ v) =
      (⟨'*' :: '*' :: (L.data ++ (':' :: '*' :: '*' :: ' ' :: v.data))⟩ : String) :=
    stringDataEq _ _ hAdata
  have hAnl : '\n' ∉ ("**" ++ L ++ ":** " ++ v).data := by
    rw [hAdata]
    simp [hLnl, hvnl]
  -- line splitting
  have htext : ("**" ++ L ++ ":** " ++ v ++ "\n" ++ c ++ "\n").data =
      ("**" ++ L ++ ":** " ++ v).data ++ '\n' :: (c.data ++ '\n' :: []) := by
    have d3 : ("\n" : String).data = ['\n'] := rfl
    simp only [String.data_append, d3, List.append_assoc, List.cons_append,
      List.nil_append]
  have hlines : pySplitLines ("**" ++ L ++ ":** " ++ v ++ "\n" ++ c ++ "\n") =
      [("**" ++ L ++ ":** " ++ v), c, ""] := by
    unfold pySplitLines
    rw [htext, splitNLAux_append_nl _ _ _ hAnl, splitNLAux_append_nl _ _ _ hcnl]
    rfl
  -- head analysis of the first line
  have ht : (L.data ++ (':' :: '*' :: '*' :: ' ' :: v.data)).takeWhile (· ≠ '*') =
      L.data ++ [':'] := by
    rw [takeWhile_append_all _ _ _ (fun x hx => by
      simp only [decide_eq_true_eq]
      exact fun he => hLstar (he ▸ hx))]
    rfl
  have hdw : (L.data ++ (':' :: '*' :: '*' :: ' ' :: v.data)).dropWhile (· ≠ '*') =
      '*' :: '*' :: ' ' :: v.data := by
    rw [dropWhile_append_all _ _ _ (fun x hx => by
      simp only [decide_eq_true_eq]
      exact fun he => hLstar (he ▸ hx))]
    rfl
  have hbs : matchBoldSection
      ⟨'*' :: '*' :: (L.data ++ (':' :: '*' :: '*' :: ' ' :: v.data))⟩ = none := by
    simp only [matchBoldSection, ht, hdw]
    rw [hLd]
    simp [hvd, hv0]
  have hg2 : (' ' :: v0 :: vtl).dropWhile isWS = v0 :: vtl := by
    rw [List.dropWhile_cons, if_pos (by decide), List.dropWhile_cons,
      if_neg (by simp [hv0])]
  have hbp : matchBoldPara
      ⟨'*' :: '*' :: (L.data ++ (':' :: '*' :: '*' :: ' ' :: v.data))⟩ =
      some (L ++ ":", v) := by
    simp only [matchBoldPara]
    rw [ht, hdw, hLd, hvd]
    simp only [List.cons_append, hg2, Option.some.injEq, Prod.mk.injEq]
    constructor
    · refine stringDataEq _ _ ?_
      show L0 :: (Ltl ++ [':']) = (L ++ ":").data
      rw [show (L ++ ":").data = L.data ++ [':'] from by simp [String.data_append],
        hLd, List.cons_append]
    · refine stringDataEq _ _ ?_
      show v0 :: vtl = v.data
      rw [hvd]
  -- strip-cleanliness of the first line
  have hgl : ('*' :: '*' :: (L.data ++ (':' :: '*' :: '*' :: ' ' :: v.data))).getLast?
      = v.data.getLast? := by
    cases hvg : v.data.getLast? with
    | none =>
      rw [List.getLast?_eq_none_iff] at hvg
      rw [hvd] at hvg
      simp at hvg
    | some y =>
      rw [show ('*' :: '*' :: (L.data ++ (':' :: '*' :: '*' :: ' ' :: v.data)))
          = ('*' :: '*' :: L.data ++ [':', '*', '*', ' ']) ++ v.data from by
          simp [List.cons_append, List.append_assoc],
        List.getLast?_append, hvg]
      rfl
  have hlast : ∀ x, ("**" ++ L ++ ":** " ++ v).data.getLast? = some x →
      isWS x = false := by
    intro x hx
    rw [hAdata, hgl] at hx
    exact hvE.2 x hx
  have hpsA : pstrip ("**" ++ L ++ ":** " ++ v) = ("**" ++ L ++ ":** " ++ v) := by
    refine pstrip_eq_self_of_ends _ ?_ hlast
    intro x hx
    rw [hAdata] at hx
    simp only [List.head?_cons, Option.some.injEq] at hx
    subst hx
    rfl
  have hpsA' : pstrip ⟨'*' :: '*' :: (L.data ++ (':' :: '*' :: '*' :: ' ' :: v.data))⟩
      = ⟨'*' :: '*' :: (L.data ++ (':' :: '*' :: '*' :: ' ' :: v.data))⟩ := by
    rw [← hAeq]
    exact hpsA
  -- the continuation collection
  have hcol : collectCont boldParaBreak [c, ""] = ([c], 1) := by
    have hb0 : boldParaBreak "" = true := rfl
    have hps0 : pstrip "" = "" := rfl
    simp [collectCont, hc, hcb, hb0, hps0]
  -- label and rest strip to themselves
  have hpsL : pstrip (L ++ ":") = L ++ ":" := by
    apply pstrip_eq_self_of_ends
    · intro x hx
      rw [show (L ++ ":").data = L.data ++ [':'] from by simp [String.data_append],
        hLd] at hx
      simp at hx
      rw [← hx]
      exact hLE.1 L0 (by rw [hLd]; rfl)
    · intro x hx
      rw [show (L ++ ":").data = L.data ++ [':'] from by simp [String.data_append],
        List.getLast?_append] at hx
      simp only [List.getLast?_singleton, Option.or_some, Option.some.injEq] at hx
      subst hx
      rfl
  -- assemble
  rw [render_translated_text]
  rw [hlines, hAeq]
  rw [show (((⟨'*' :: '*' :: (L.data ++ (':' :: '*' :: '*' :: ' ' :: v.data))⟩ : String)
    :: [c, ""]).length + 1) = ((1 + 1 + 1) + 1) from by simp]
  rw [renderGo]
  have e1 : decide ((⟨'*' :: '*' :: (L.data ++ (':' :: '*' :: '*' :: ' ' :: v.data))⟩
      : String) = "") = false := rfl
  have e2 : pyStartsWith
      ⟨'*' :: '*' :: (L.data ++ (':' :: '*' :: '*' :: ' ' :: v.data))⟩ "====" =
      false := rfl
  have e3 : decide ((⟨'*' :: '*' :: (L.data ++ (':' :: '*' :: '*' :: ' ' :: v.data))⟩
      : String) = "---") = false := rfl
  have e4 : pyStartsWith
      ⟨'*' :: '*' :: (L.data ++ (':' :: '*' :: '*' :: ' ' :: v.data))⟩ "Now let me" =
      false := rfl
  have e5 : pyStartsWith
      ⟨'*' :: '*' :: (L.data ++ (':' :: '*' :: '*' :: ' ' :: v.data))⟩ "Let me" =
      false := rfl
  have e6 : matchChapterLine
      ⟨'*' :: '*' :: (L.data ++ (':' :: '*' :: '*' :: ' ' :: v.data))⟩ = none := rfl
  have e7 : matchChapterLine2
      ⟨'*' :: '*' :: (L.data ++ (':' :: '*' :: '*' :: ' ' :: v.data))⟩ = none := rfl
  have e8 : isEpilogueLine
      ⟨'*' :: '*' :: (L.data ++ (':' :: '*' :: '*' :: ' ' :: v.data))⟩ = false := rfl
  have e9 : matchAppendixLine
      ⟨'*' :: '*' :: (L.data ++ (':' :: '*' :: '*' :: ' ' :: v.data))⟩ = none := rfl
  have e10 : isBibliographyLine
      ⟨'*' :: '*' :: (L.data ++ (':' :: '*' :: '*' :: ' ' :: v.data))⟩ = false := rfl
  have e11 : matchSectionHeader
      ⟨'*' :: '*' :: (L.data ++ (':' :: '*' :: '*' :: ' ' :: v.data))⟩ = none := rfl
  simp only [hpsA', e1, e2, e3, e4, e5, e6, e7, e8, e9, e10, e11, hbs, hbp,
    Bool.false_or, Bool.or_false, Bool.false_eq_true, if_false]
  simp only [hcol, hpsL, hv, appendSpaced, List.foldl_cons, List.foldl_nil,
    List.drop_succ_cons, List.drop_zero]
  have hstr : (L ++ ":") ++ ": " ++ (v ++ " " ++ c) = L ++ ":: " ++ v ++ " " ++ c := by
    apply stringDataEq
    have d4 : (": " : String).data = [':', ' '] := rfl
    have d5 : (":: " : String).data = [':', ':', ' '] := rfl
    have d6 : (":" : String).data = [':'] := rfl
    have d7 : (" " : String).data = [' '] := rfl
    simp [String.data_append, d4, d5, d6, d7, List.append_assoc]
  rw [hstr]
  exact renderGo_blank_nil 1 _

/-- Witness for C9 (amended) at the concrete input
`**Note:** hello` / `world` / blank: one paragraph element reading
`Note:: hello world`. -/
theorem bold_label_paragraph_amended_witness :
    (("Note" : String) ≠ "" ∧ pstrip "Note" = "Note" ∧
     ('*' : Char) ∉ ("Note" : String).data ∧ ('\n' : Char) ∉ ("Note" : String).data ∧
     ("hello" : String) ≠ "" ∧ pstrip "hello" = "hello" ∧
     ('\n' : Char) ∉ ("hello" : String).data ∧
     ("world" : String) ≠ "" ∧ pstrip "world" = "world" ∧
     ('\n' : Char) ∉ ("world" : String).data ∧
     boldParaBreak "world" = false) ∧
    render_translated_text {}
        ("**" ++ "Note" ++ ":** " ++ "hello" ++ "\n" ++ "world" ++ "\n") =
      add_paragraph {} ("Note" ++ ":: " ++ "hello" ++ " " ++ "world") :=
  ⟨⟨by decide, by decide, by decide, by decide, by decide, by decide, by decide,
    by decide, by decide, by decide, by decide⟩,
   bold_label_paragraph_amended {} "Note" "hello" "world" (by decide) (by decide)
     (by decide) (by decide) (by decide) (by decide) (by decide) (by decide)
     (by decide) (by decide) (by decide)⟩

end BookTrans
